import Mathlib

/-!
# vidyagiribackend: search-augmented retrieval and streaming synthesis

A shallow embedding of `src/index.js` (an Express server). JavaScript values
that reach the code through JSON are modelled by small inductive types, the
external capabilities (generation, search, page fetch, HTML parsing, text
splitting, embedding, similarity search, user-metadata update) are fields of
an environment, and every handler is a function that threads an explicit log
of the external calls it makes and of the responses it sends.
-/

namespace Vidyagiri

/-! ## Data model -/

/-- The `{title, link, snippet}` triple. It is the shape of a normalized
search hit, of the metadata attached to every retrieved document, and of an
entry of `sourcesParsed`. A field that is `undefined` in JavaScript is `none`. -/
structure SearchHit where
  title : Option String
  link : Option String
  snippet : Option String
deriving DecidableEq, Repr

/-- A document returned by `vectorStore.similaritySearch`. -/
structure Doc where
  pageContent : String
  metadata : SearchHit
deriving DecidableEq, Repr

/-- The result of one `fetchAndProcess` branch: `null` or a group of documents. -/
abbrev BranchResult := Option (List Doc)

/-! ## `sourcesParsed` (POST / lines 296-306, POST /audio lines 384-394) -/

/-- `Array.prototype.findIndex`, counting from `i`: the index of the first
element satisfying `p`; `none` stands for JavaScript's `-1`. -/
def findIndexFrom {α : Type} (p : α → Bool) : List α → Nat → Option Nat
  | [], _ => none
  | x :: xs, i => if p x then some i else findIndexFrom p xs (i + 1)

/-- `self.findIndex(p)`. -/
def findIndex {α : Type} (p : α → Bool) (self : List α) : Option Nat :=
  findIndexFrom p self 0

/-- `Array.prototype.filter` with the three-argument callback
`(element, index, self)`, over the suffix that starts at index `i`. -/
def filterWithIndexFrom {α : Type} (f : α → Nat → List α → Bool) (self : List α) :
    List α → Nat → List α
  | [], _ => []
  | x :: xs, i =>
    if f x i self then x :: filterWithIndexFrom f self xs (i + 1)
    else filterWithIndexFrom f self xs (i + 1)

/-- `self.filter((element, index, self) => ...)`. -/
def filterWithIndex {α : Type} (f : α → Nat → List α → Bool) (self : List α) : List α :=
  filterWithIndexFrom f self self 0

/-- `sources.filter(Boolean)`: a group is an array (truthy even when empty),
so exactly the `null` entries are removed. -/
def filterBoolean (sources : List BranchResult) : List (List Doc) :=
  sources.filterMap id

/-- `doc => ({title: doc.metadata.title, link: doc.metadata.link, snippet: doc.metadata.snippet})`. -/
def docToSource (doc : Doc) : SearchHit :=
  { title := doc.metadata.title, link := doc.metadata.link, snippet := doc.metadata.snippet }

/-- `sources.filter(Boolean).map(group => group.map(doc => ...)).flat()`. -/
def flattenSources (sources : List BranchResult) : List SearchHit :=
  ((filterBoolean sources).map (fun group => group.map docToSource)).flatten

/-- The callback `(doc, index, self) => index === self.findIndex(d => d.link === doc.link)`. -/
def isFirstWithLink (doc : SearchHit) (index : Nat) (self : List SearchHit) : Bool :=
  decide (some index = findIndex (fun d => decide (d.link = doc.link)) self)

/-- The `sourcesParsed` constant of POST / and POST /audio. -/
def sourcesParsed (sources : List BranchResult) : List SearchHit :=
  filterWithIndex isFirstWithLink (flattenSources sources)

/-- The deduplication as the specification words it: walk the list in order
and keep an entry exactly when its link has not been seen before. -/
def firstOccurrences (seen : List (Option String)) : List SearchHit → List SearchHit
  | [] => []
  | x :: xs =>
    if x.link ∈ seen then firstOccurrences seen xs
    else x :: firstOccurrences (x.link :: seen) xs

/-! ## JavaScript values -/

/-- A thrown JavaScript error; `message` is `error.message`. -/
structure JSError where
  message : String
deriving DecidableEq, Repr

/-- A field of a JSON request body as the handlers see it. `undefined` is an
omitted field, `object` any object or array (always truthy). A non-integer
number is truthy like every non-zero integer. -/
inductive JSVal where
  | undefined
  | null
  | bool (b : Bool)
  | num (n : Int)
  | str (s : String)
  | object
deriving DecidableEq, Repr

/-- JavaScript truthiness. -/
def JSVal.truthy : JSVal → Bool
  | .undefined => false
  | .null => false
  | .bool b => b
  | .num n => n != 0
  | .str s => s != ""
  | .object => true

/-- A destructuring default `{ field = dflt } = req.body`: the default is
taken exactly when the field is `undefined`. -/
def JSVal.orDefault (v dflt : JSVal) : JSVal :=
  match v with
  | .undefined => dflt
  | w => w

/-- `a || b`. -/
def JSVal.or (a b : JSVal) : JSVal :=
  if a.truthy then a else b

/-- A value produced by `JSON.parse`. -/
inductive JSON where
  | null
  | bool (b : Bool)
  | num (n : Int)
  | str (s : String)
  | arr (items : List JSON)
  | obj (fields : List (String × JSON))
deriving Repr

/-- `String.prototype.length`: the number of UTF-16 code units. -/
def jsLength (s : String) : Nat :=
  (s.toList.map (fun c => if c.toNat < 65536 then 1 else 2)).sum

/-- `haystack.includes(needle)` on character lists. -/
def includesChars (needle : List Char) : List Char → Bool
  | [] => needle.isPrefixOf []
  | c :: cs => needle.isPrefixOf (c :: cs) || includesChars needle cs

/-- `haystack.includes(needle)`. -/
def jsIncludes (haystack needle : String) : Bool :=
  includesChars needle.toList haystack.toList

/-! ## Search results, stream events, requests -/

/-- One entry of the provider's `organic` array. Only `title`, `link` and
`snippet` are read; `extra` holds every other field (position, date, ...). -/
structure SearchResult where
  title : Option String
  link : Option String
  snippet : Option String
  extra : List (String × String)
deriving DecidableEq, Repr

/-- The parsed body of the search provider's answer; `organic` is `none`
when the field is absent (or otherwise falsy). -/
structure SerperData where
  organic : Option (List SearchResult)
deriving DecidableEq, Repr

/-- A settled `fetch`: the HTTP status and the outcome of reading the body
(`response.text()` or `response.json()`). -/
structure Response (α : Type) where
  status : Nat
  body : Except JSError α

/-- `response.ok`: the status is in the range 200-299. -/
def Response.ok {α : Type} (r : Response α) : Bool :=
  decide (200 ≤ r.status) && decide (r.status ≤ 299)

/-- What cheerio yields for a page after the non-content elements are
removed: the text of `article, main, .content, .post-content`, and the text
of `body`. -/
structure LoadedPage where
  containerText : String
  bodyText : String
deriving DecidableEq, Repr

/-- `chunk.choices[0].delta.content`. -/
inductive DeltaContent where
  | undefined
  | null
  | text (s : String)
deriving DecidableEq, Repr

/-- The string that `responseTotal += content` appends. -/
def DeltaContent.toJsString : DeltaContent → String
  | .undefined => "undefined"
  | .null => "null"
  | .text s => s

/-- `chunk.choices[0].delta` when it is an object. -/
structure Delta where
  content : DeltaContent
deriving DecidableEq, Repr

/-- `chunk.choices[0]`: `delta` is `none` when falsy, `finish_reason` is
`none` when `null`. -/
structure Choice where
  delta : Option Delta
  finish_reason : Option String
deriving DecidableEq, Repr

/-- A streamed chunk; `choice0` is `none` when `choices[0]` is `undefined`. -/
structure Chunk where
  choice0 : Option Choice
deriving DecidableEq, Repr

/-- A finite generation stream: the items the async iterator yields, an
`error` item being the point where iteration throws (provider disconnect). -/
abbrev GenStream := List (Except JSError Chunk)

/-- Non-streaming generation requests, by the parameters that determine
their prompt. -/
inductive ChatRequest where
  | rephrase (inputString : JSVal)
  | rephraseDiagram (inputString : JSVal)
  | followUps (responseText : String) (varkStyle : JSVal)
deriving DecidableEq, Repr

/-- The system message of a streaming generation call. -/
inductive SystemDirective where
  | standard (varkStyle message embedSourcesInLLMResponse : JSVal)
  | audio (varkStyle message embedSourcesInLLMResponse : JSVal)
  | kinesthetic (message : JSVal)
  | diagram
deriving DecidableEq, Repr

/-- The user message of a streaming generation call:
`Here are the relevant search results: ${JSON.stringify(sources)}`,
`Here is the query: ${message}` or `Topic: ${message}`. -/
inductive UserTurn where
  | searchResults (sources : List BranchResult)
  | query (message : JSVal)
  | topic (message : JSVal)
deriving DecidableEq, Repr

/-- A streaming generation request (`stream: true`). -/
structure StreamRequest where
  system : SystemDirective
  user : UserTurn
deriving DecidableEq, Repr

/-- A value stored under a key of a response object. -/
inductive PValue where
  | val (v : JSVal)
  | text (s : String)
  | sources (entries : List SearchHit)
  | json (j : JSON)
deriving Repr

/-- A response object: its keys with their values, in insertion order. -/
abbrev Payload := List (String × PValue)

/-- Whether the object has the key. -/
def hasKey (key : String) (payload : Payload) : Bool :=
  payload.any (fun kv => kv.1 == key)

/-- `...(cond && { fields })`: the fields are spread in exactly when `cond`
is truthy. -/
def spreadIf (cond : JSVal) (fields : Payload) : Payload :=
  if cond.truthy then fields else []

/-! ## External capabilities and the event log -/

/-- Everything outside the process, as functions of the request. -/
structure Env where
  /-- `openai.chat.completions.create` without streaming, then
  `.choices[0].message.content`. -/
  chat : ChatRequest → Except JSError String
  /-- `openai.chat.completions.create` with `stream: true`. -/
  chatStream : StreamRequest → Except JSError GenStream
  /-- `JSON.parse`. -/
  jsonParse : String → Except JSError JSON
  /-- `fetch('https://google.serper.dev/search', ...)` for a query and a count. -/
  serper : String → Nat → Except JSError (Response SerperData)
  /-- `fetch(link, ...)` of a page. -/
  fetchPage : Option String → Except JSError (Response String)
  /-- `cheerio.load(html)` and the two `.text()` selections. -/
  cheerio : String → Except JSError LoadedPage
  /-- `splitter.splitText`. -/
  splitText : String → Except JSError (List String)
  /-- `MemoryVectorStore.fromTexts(splitText, metadata, embeddings)`. -/
  fromTexts : List String → SearchHit → Except JSError Unit
  /-- `vectorStore.similaritySearch(query, k)` on the store built from the
  given texts and metadata. -/
  similaritySearch : List String → SearchHit → Option String → Nat → Except JSError (List Doc)
  /-- `clerkClient.users.updateUserMetadata`. -/
  updateUserMetadata : String → JSVal → Except JSError Unit

/-- An observable step of a handler: a call of an external capability, or a
call of `res.status(code).json(payload)`. `respond` is a call that sent the
response, `respondAfterSent` one that was made after a response had already
been sent. -/
inductive Event where
  | chat (req : ChatRequest)
  | chatStream (req : StreamRequest)
  | serperSearch (query : String) (num : Nat)
  | fetchPage (link : Option String)
  | splitText (text : String)
  | fromTexts (texts : List String) (metadata : SearchHit)
  | similaritySearch (query : Option String) (k : Nat)
  | updateUserMetadata (userId : String) (preference : JSVal)
  | respond (status : Nat) (payload : Payload)
  | respondAfterSent (status : Nat) (payload : Payload)
deriving Repr

/-- Whether the event is a sent response. -/
def Event.isRespond : Event → Bool
  | .respond _ _ => true
  | _ => false

/-- Whether the event is a call of an external capability. -/
def Event.isExternalCall : Event → Bool
  | .respond _ _ => false
  | .respondAfterSent _ _ => false
  | _ => true

/-- Whether the event is a call made by the evidence pipeline: rephrasing,
search, page fetch, splitting, embedding or similarity search. -/
def Event.isEvidenceCall : Event → Bool
  | .chat (.rephrase _) => true
  | .serperSearch _ _ => true
  | .fetchPage _ => true
  | .splitText _ => true
  | .fromTexts _ _ => true
  | .similaritySearch _ _ => true
  | _ => false

/-- An asynchronous computation: given the events that happened before it,
the events it adds, in order, and its outcome (a value, or a thrown error). -/
def Run (α : Type) : Type := List Event → List Event × Except JSError α

/-- A computation that returns a value. -/
def Run.pure {α : Type} (a : α) : Run α := fun _ => ([], .ok a)

/-- `throw e`. -/
def Run.throw {α : Type} (e : JSError) : Run α := fun _ => ([], .error e)

/-- Sequencing: a thrown error skips the rest. -/
def Run.bind {α β : Type} (m : Run α) (f : α → Run β) : Run β := fun hist =>
  match m hist with
  | (evs, .ok a) =>
    match f a (hist ++ evs) with
    | (evs2, r) => (evs ++ evs2, r)
  | (evs, .error e) => (evs, .error e)

/-- `try { body } catch (error) { handler }`. -/
def Run.tryCatch {α : Type} (body : Run α) (handler : JSError → Run α) : Run α := fun hist =>
  match body hist with
  | (evs, .ok a) => (evs, .ok a)
  | (evs, .error e) =>
    match handler e (hist ++ evs) with
    | (evs2, r) => (evs ++ evs2, r)

/-- A call of an external capability: the call is logged and its outcome is
the computation's outcome. -/
def Run.call {α : Type} (ev : Event) (outcome : Except JSError α) : Run α :=
  fun _ => ([ev], outcome)

/-- A value or error that is already settled. -/
def Run.ofExcept {α : Type} (outcome : Except JSError α) : Run α :=
  fun _ => ([], outcome)

instance : Monad Run where
  pure := Run.pure
  bind := Run.bind

/-- The events and the outcome of a handler run from an empty history. -/
def Run.run {α : Type} (m : Run α) : List Event × Except JSError α := m []

/-- The error Express raises from `res.json` once a response has been sent. -/
def headersSentError : JSError :=
  { message := "Cannot set headers after they are sent to the client" }

/-- `res.status(code).json(payload)`. The first call sends the response; a
call made after a response was sent throws (Express cannot set the headers
again) and sends nothing. -/
def respond (status : Nat) (payload : Payload) : Run Unit := fun hist =>
  if hist.any Event.isRespond then ([.respondAfterSent status payload], .error headersSentError)
  else ([.respond status payload], .ok ())

/-- `Promise.all(items.map(f))`: every branch runs; the outcome is the list
of results in item order, or a rejection when a branch rejects. The branches
do not share state, so their events are logged branch after branch. -/
def promiseAll {α β : Type} (f : α → Run β) : List α → Run (List β)
  | [] => Run.pure []
  | x :: xs => fun hist =>
    match f x hist with
    | (evs, r) =>
      match promiseAll f xs (hist ++ evs) with
      | (evs2, rs) =>
        (evs ++ evs2,
          match r, rs with
          | .ok y, .ok ys => .ok (y :: ys)
          | .error e, _ => .error e
          | .ok _, .error e => .error e)

/-! ## Generation helpers (lines 39-121) -/

/-- `detectVarkStyle`: always `'visual'`. -/
def detectVarkStyle (_message : JSVal) : JSVal := .str "visual"

/-- `rephraseInput`. -/
def rephraseInput (env : Env) (inputString : JSVal) : Run String :=
  Run.call (.chat (.rephrase inputString)) (env.chat (.rephrase inputString))

/-- `rephraseInputDiagram`. -/
def rephraseInputDiagram (env : Env) (inputString : JSVal) : Run String :=
  Run.call (.chat (.rephraseDiagram inputString)) (env.chat (.rephraseDiagram inputString))

/-- `generateVarkStyleFollowUpQuestions`: one generation call, then
`JSON.parse` of the returned text. -/
def generateVarkStyleFollowUpQuestions (env : Env) (responseText : String)
    (varkStyle : JSVal) : Run JSON :=
  Run.bind
    (Run.call (.chat (.followUps responseText varkStyle))
      (env.chat (.followUps responseText varkStyle)))
    (fun content => Run.ofExcept (env.jsonParse content))

/-! ## Search client (lines 124-173) -/

/-- `searchWithSerper`. -/
def searchWithSerper (env : Env) (query : String) (numberOfResults : Nat := 10) :
    Run (List SearchResult) :=
  Run.tryCatch
    (Run.bind (Run.call (.serperSearch query numberOfResults) (env.serper query numberOfResults))
      (fun response =>
        if !response.ok then
          Run.throw { message := "Serper API error: " ++ toString response.status }
        else
          Run.bind (Run.ofExcept response.body) (fun data =>
            Run.pure (data.organic.getD []))))
    (fun _error => Run.pure [])

/-- The filter callback `result => result.link && !result.link.includes('google.com')`. -/
def keepResult (result : SearchResult) : Bool :=
  match result.link with
  | none => false
  | some link => link != "" && !(jsIncludes link "google.com")

/-- The map callback `result => ({title: result.title, link: result.link, snippet: result.snippet})`. -/
def projectResult (result : SearchResult) : SearchHit :=
  { title := result.title, link := result.link, snippet := result.snippet }

/-- The `normalizedData` constant of `searchEngineForSources`. -/
def normalizedData (searchResults : List SearchResult) : List SearchHit :=
  (searchResults.filter keepResult).map projectResult

/-! ## Content extraction (lines 200-224) -/

/-- The characters matched by `\s` and stripped by `trim()`. -/
def isJsSpace (c : Char) : Bool :=
  let n := c.toNat
  n == 9 || n == 10 || n == 11 || n == 12 || n == 13 || n == 32 || n == 160 ||
  n == 5760 || (8192 ≤ n && n ≤ 8202) || n == 8232 || n == 8233 || n == 8239 ||
  n == 8287 || n == 12288 || n == 65279

/-- `replace(/p+/g, ' ')` for a character class `p`: every maximal run of
matching characters becomes one space. `inRun` tells that the previous
character matched. -/
def replaceRuns (p : Char → Bool) : Bool → List Char → List Char
  | _, [] => []
  | inRun, c :: cs =>
    if p c then
      if inRun then replaceRuns p true cs else ' ' :: replaceRuns p true cs
    else c :: replaceRuns p false cs

/-- `trim()`. -/
def jsTrim (cs : List Char) : List Char :=
  (cs.dropWhile isJsSpace).rdropWhile isJsSpace

/-- The clean-up `content.replace(/\s+/g, ' ').replace(/\n+/g, ' ').trim()`. -/
def cleanContent (content : String) : String :=
  String.mk (jsTrim (replaceRuns (fun c => c == '\n') false
    (replaceRuns isJsSpace false content.toList)))

/-- `extractMainContent`. -/
def extractMainContent (env : Env) (html : String) : String :=
  match env.cheerio html with
  | .error _ => ""
  | .ok page =>
    let content :=
      if jsTrim page.containerText.toList = [] then page.bodyText else page.containerText
    cleanContent content

/-! ## Source fetcher and per-hit branch (lines 176-261) -/

/-- `fetchPageContent`. -/
def fetchPageContent (env : Env) (link : Option String) : Run String :=
  Run.tryCatch
    (Run.bind (Run.call (.fetchPage link) (env.fetchPage link)) (fun response =>
      if !response.ok then Run.pure ""
      else Run.bind (Run.ofExcept response.body) (fun text =>
        Run.pure (extractMainContent env text))))
    (fun _error => Run.pure "")

/-- The guarded part of `fetchAndProcess`: split, embed, retrieve. -/
def processContent (env : Env) (item : SearchHit) (htmlContent : String) : Run BranchResult :=
  Run.bind (Run.call (.splitText htmlContent) (env.splitText htmlContent)) (fun splitText =>
    let metadata : SearchHit := { link := item.link, title := item.title, snippet := item.snippet }
    Run.bind (Run.call (.fromTexts splitText metadata) (env.fromTexts splitText metadata))
      (fun _vectorStore =>
        Run.bind
          (Run.call (.similaritySearch item.snippet 2)
            (env.similaritySearch splitText metadata item.snippet 2))
          (fun docs => Run.pure (some docs))))

/-- `fetchAndProcess`. -/
def fetchAndProcess (env : Env) (item : SearchHit) : Run BranchResult :=
  Run.bind (fetchPageContent env item.link) (fun htmlContent =>
    if htmlContent = "" || decide (jsLength htmlContent < 250) then Run.pure none
    else Run.tryCatch (processContent env item htmlContent) (fun _error => Run.pure none))

/-- `searchEngineForSources`. -/
def searchEngineForSources (env : Env) (message : JSVal) (numberOfPagesToScan : Nat := 4) :
    Run (List BranchResult) :=
  Run.bind (rephraseInput env message) (fun rephrasedMessage =>
    Run.bind (searchWithSerper env rephrasedMessage numberOfPagesToScan) (fun searchResults =>
      promiseAll (fetchAndProcess env) (normalizedData searchResults)))

/-! ## Request handlers (lines 264-633) -/

/-- The body of POST /, /audio, /kinesthetic and /diagram. -/
structure QueryBody where
  message : JSVal
  returnSources : JSVal
  returnFollowUpQuestions : JSVal
  embedSourcesInLLMResponse : JSVal
  preferredStyle : JSVal
deriving DecidableEq, Repr

/-- The body of POST /result. -/
structure ResultBody where
  preference : JSVal
deriving DecidableEq, Repr

/-- The `TypeError` of reading a property of `undefined`. -/
def undefinedChoiceError : JSError :=
  { message := "Cannot read properties of undefined (reading 'delta')" }

/-- The `followUpQuestions` spread of the response object: when the flag is
truthy the questions are generated (and awaited) before the response is sent. -/
def followUpSpread (env : Env) (returnFollowUpQuestions : JSVal) (responseTotal : String)
    (varkStyle : JSVal) : Run Payload :=
  if returnFollowUpQuestions.truthy then
    Run.bind (generateVarkStyleFollowUpQuestions env responseTotal varkStyle) (fun questions =>
      Run.pure [("followUpQuestions", PValue.json questions)])
  else Run.pure []

/-- `chunk.choices[0].delta.content`, read when `delta` is truthy. -/
def Choice.deltaContent (choice : Choice) : DeltaContent :=
  match choice.delta with
  | some delta => delta.content
  | none => .undefined

/-- The loop condition `chunk.choices[0].delta && chunk.choices[0].finish_reason !== "stop"`. -/
def Choice.continues (choice : Choice) : Bool :=
  choice.delta.isSome && decide (choice.finish_reason ≠ some "stop")

/-- The streaming loop `for await (const chunk of chatCompletion) { ... }`
shared (textually repeated) by the four query handlers; `sourcesSpread` is
the `...(returnSources && { sources: sourcesParsed })` part, empty in the
handlers that have none. The second argument is `responseTotal`. -/
def streamLoop (env : Env) (varkStyle : JSVal) (sourcesSpread : Payload)
    (returnFollowUpQuestions : JSVal) : GenStream → String → Run Unit
  | [], _ => Run.pure ()
  | .error e :: _, _ => Run.throw e
  | .ok chunk :: rest, responseTotal =>
    match chunk.choice0 with
    | none => Run.throw undefinedChoiceError
    | some choice =>
      if choice.continues then
        streamLoop env varkStyle sourcesSpread returnFollowUpQuestions rest
          (responseTotal ++ choice.deltaContent.toJsString)
      else
        Run.bind (followUpSpread env returnFollowUpQuestions responseTotal varkStyle)
          (fun followUps =>
            Run.bind
              (respond 200 ([("varkStyle", PValue.val varkStyle),
                ("answer", PValue.text responseTotal)] ++ sourcesSpread ++ followUps))
              (fun _ => streamLoop env varkStyle sourcesSpread returnFollowUpQuestions rest
                responseTotal))

/-- The `catch (error)` block of the query handlers. -/
def errorResponse (error : JSError) : Run Unit :=
  respond 500 [("error", PValue.text "An error occurred processing your request"),
    ("details", PValue.text error.message)]

/-- The handler of POST / (`audio = false`) and of POST /audio
(`audio = true`); the two differ only in the system directive. -/
def evidenceHandler (audio : Bool) (env : Env) (body : QueryBody) : Run Unit :=
  let message := body.message
  let returnSources := body.returnSources.orDefault (.bool true)
  let returnFollowUpQuestions := body.returnFollowUpQuestions.orDefault (.bool true)
  let embedSourcesInLLMResponse := body.embedSourcesInLLMResponse.orDefault (.bool false)
  let preferredStyle := body.preferredStyle.orDefault .null
  Run.tryCatch
    (let varkStyle := preferredStyle.or (detectVarkStyle message)
     Run.bind (searchEngineForSources env message) (fun sources =>
      let parsed := sourcesParsed sources
      let request : StreamRequest :=
        { system :=
            if audio then .audio varkStyle message embedSourcesInLLMResponse
            else .standard varkStyle message embedSourcesInLLMResponse
          user := .searchResults sources }
      Run.bind (Run.call (.chatStream request) (env.chatStream request)) (fun chatCompletion =>
        streamLoop env varkStyle (spreadIf returnSources [("sources", PValue.sources parsed)])
          returnFollowUpQuestions chatCompletion "")))
    errorResponse

/-- The handler of POST /. -/
def postRoot (env : Env) (body : QueryBody) : Run Unit := evidenceHandler false env body

/-- The handler of POST /audio. -/
def postAudio (env : Env) (body : QueryBody) : Run Unit := evidenceHandler true env body

/-- The handler of POST /kinesthetic. -/
def postKinesthetic (env : Env) (body : QueryBody) : Run Unit :=
  let message := body.message
  let returnFollowUpQuestions := body.returnFollowUpQuestions.orDefault (.bool true)
  Run.tryCatch
    (let varkStyle := JSVal.str "kinesthetic"
     let request : StreamRequest := { system := .kinesthetic message, user := .query message }
     Run.bind (Run.call (.chatStream request) (env.chatStream request)) (fun chatCompletion =>
       streamLoop env varkStyle [] returnFollowUpQuestions chatCompletion ""))
    errorResponse

/-- The handler of POST /diagram. -/
def postDiagram (env : Env) (body : QueryBody) : Run Unit :=
  let message := body.message
  let returnFollowUpQuestions := body.returnFollowUpQuestions.orDefault (.bool true)
  Run.tryCatch
    (let varkStyle := JSVal.str "visual"
     let request : StreamRequest := { system := .diagram, user := .topic message }
     Run.bind (Run.call (.chatStream request) (env.chatStream request)) (fun chatCompletion =>
       streamLoop env varkStyle [] returnFollowUpQuestions chatCompletion ""))
    errorResponse

/-- The handler of POST /result, for an authenticated user. -/
def postResult (env : Env) (userId : String) (body : ResultBody) : Run Unit :=
  let preference := body.preference
  if !preference.truthy then
    respond 400 [("message", PValue.text "Missing required field: preference")]
  else
    let preference :=
      if preference = .str "Multimodal" then JSVal.str "Read"
      else if preference = .str "Read/Write" then JSVal.str "Read"
      else preference
    Run.tryCatch
      (Run.bind
        (Run.call (.updateUserMetadata userId preference)
          (env.updateUserMetadata userId preference))
        (fun _ =>
          respond 200 [("message", PValue.text "Results saved successfully"),
            ("modifiedPreference", PValue.val preference)]))
      (fun _error => respond 500 [("message", PValue.text "Failed to save results")])

/-! ## Denotations, specification-side predicates and sample environments -/

/-- The string `fetchPageContent` resolves to, read off the environment. -/
def pageText (env : Env) (link : Option String) : String :=
  match env.fetchPage link with
  | .error _ => ""
  | .ok response =>
    if !response.ok then ""
    else
      match response.body with
      | .error _ => ""
      | .ok html => extractMainContent env html

/-- The value one `fetchAndProcess` branch resolves to. -/
def branchResult (env : Env) (item : SearchHit) : BranchResult :=
  match (fetchAndProcess env item []).2 with
  | .ok r => r
  | .error _ => none

/-- The link of a page-fetch event. -/
def Event.fetchedLink : Event → Option (Option String)
  | .fetchPage link => some link
  | _ => none

/-- The part of `cs` after the first occurrence of `sep`, if any. -/
def dropThrough (sep : List Char) : List Char → Option (List Char)
  | [] => none
  | c :: cs =>
    if sep.isPrefixOf (c :: cs) then some ((c :: cs).drop sep.length)
    else dropThrough sep cs

/-- The host of a URL: what follows the scheme separator, up to the first
`/`, `?`, `#` or `:`. -/
def urlHost (link : String) : List Char :=
  let rest := (dropThrough "://".toList link.toList).getD link.toList
  rest.takeWhile (fun c => c != '/' && c != '?' && c != '#' && c != ':')

/-- The specification's wording of the filter: the link points at the search
provider's own domain, `google.com` or one of its subdomains. -/
def pointsAtSearchProvider (link : String) : Bool :=
  urlHost link == "google.com".toList || ".google.com".toList.isSuffixOf (urlHost link)

/-- An environment in which every external capability fails. -/
def offlineEnv : Env where
  chat := fun _ => .error { message := "offline" }
  chatStream := fun _ => .error { message := "offline" }
  jsonParse := fun _ => .error { message := "Unexpected token" }
  serper := fun _ _ => .error { message := "offline" }
  fetchPage := fun _ => .error { message := "offline" }
  cheerio := fun _ => .error { message := "offline" }
  splitText := fun _ => .error { message := "offline" }
  fromTexts := fun _ _ => .error { message := "offline" }
  similaritySearch := fun _ _ _ _ => .error { message := "offline" }
  updateUserMetadata := fun _ _ => .error { message := "offline" }

/-- Rephrasing works and the search provider answers with status 500. -/
def serperDownEnv : Env :=
  { offlineEnv with
    chat := fun _ => .ok "what is mitosis"
    serper := fun _ _ => .ok { status := 500, body := .error { message := "no body" } } }

/-- A result on another domain whose URL mentions `google.com` in its query. -/
def mentionResult : SearchResult :=
  { title := some "Example", link := some "https://example.org/?q=google.com",
    snippet := some "an example", extra := [] }

/-- A result on another domain. -/
def plainResult : SearchResult :=
  { title := some "Mitosis", link := some "https://example.org/mitosis",
    snippet := some "cell division", extra := [("position", "1")] }

/-- A branch failure as the specification lists them: the fetch throws or
times out, the response is not 2xx, reading or extracting the page fails, or
chunking, embedding or retrieval throws. -/
def branchFails (env : Env) (item : SearchHit) : Bool :=
  match env.fetchPage item.link with
  | .error _ => true
  | .ok response =>
    if !response.ok then true
    else
      match response.body with
      | .error _ => true
      | .ok html =>
        match env.cheerio html with
        | .error _ => true
        | .ok _ =>
          decide (250 ≤ jsLength (extractMainContent env html)) &&
            (match (processContent env item (extractMainContent env html) []).2 with
             | .error _ => true
             | .ok _ => false)

/-- Every page is fetched with status 200 and its extracted text is `n`
letters; splitting yields the text as one chunk, embedding succeeds and the
similarity search returns the first `k` chunks with the metadata attached. -/
def pageEnv (n : Nat) : Env :=
  { offlineEnv with
    fetchPage := fun _ => .ok { status := 200, body := .ok "<html>" }
    cheerio := fun _ => .ok { containerText := "", bodyText := String.mk (List.replicate n 'a') }
    splitText := fun text => .ok [text]
    fromTexts := fun _ _ => .ok ()
    similaritySearch := fun chunks metadata _ k =>
      .ok ((chunks.take k).map (fun c => { pageContent := c, metadata := metadata })) }

/-- A normalized hit. -/
def sampleHit : SearchHit :=
  { title := some "Mitosis", link := some "https://example.org/mitosis",
    snippet := some "cell division" }

/-- Rephrasing works and the provider returns a result on another domain
whose URL mentions `google.com`, followed by a plain result. -/
def mentionEnv : Env :=
  { pageEnv 10 with
    chat := fun _ => .ok "what is mitosis"
    serper := fun _ _ =>
      .ok { status := 200, body := .ok { organic := some [mentionResult, plainResult] } } }

/-- The page is fetched with status 200 and extraction succeeds, but the
extracted text is only five letters long. -/
def shortPageEnv : Env := pageEnv 5

/-- Three hits: the first and third pages are long enough, the fetch of the
second one times out. -/
def threeHits : List SearchHit :=
  [ { title := some "A", link := some "https://a.example/mitosis", snippet := some "first" },
    { title := some "B", link := some "https://b.example/down", snippet := some "second" },
    { title := some "A again", link := some "https://a.example/mitosis",
      snippet := some "third" } ]

/-- Pages are 300 letters long, except that fetching `b.example` times out. -/
def flakyEnv : Env :=
  { pageEnv 300 with
    chat := fun req =>
      match req with
      | .followUps _ _ => .ok "[\"Q1\", \"Q2\", \"Q3\"]"
      | _ => .ok "what is mitosis"
    jsonParse := fun text =>
      if text = "[\"Q1\", \"Q2\", \"Q3\"]" then .ok (.arr [.str "Q1", .str "Q2", .str "Q3"])
      else .error { message := "Unexpected token" }
    serper := fun _ _ =>
      .ok { status := 200,
            body := .ok { organic := some (threeHits.map (fun h =>
              { title := h.title, link := h.link, snippet := h.snippet, extra := [] })) } }
    fetchPage := fun link =>
      if link = some "https://b.example/down" then .error { message := "timeout" }
      else .ok { status := 200, body := .ok "<html>" } }

/-- The follow-up contract as the specification words it: the call raises,
or it returns a sequence of exactly three items. -/
def threeItemsOrRaises : Except JSError JSON → Prop
  | .error _ => True
  | .ok (.arr items) => items.length = 3
  | .ok _ => False

/-- The generation capability answers every request with the text `[]`,
which `JSON.parse` turns into the empty array. -/
def emptyListEnv : Env :=
  { offlineEnv with
    chat := fun _ => .ok "[]"
    jsonParse := fun text =>
      if text = "[]" then .ok (.arr []) else .error { message := "Unexpected token" } }

/-- A request body with no field at all. -/
def emptyBody : QueryBody :=
  { message := .undefined, returnSources := .undefined, returnFollowUpQuestions := .undefined,
    embedSourcesInLLMResponse := .undefined, preferredStyle := .undefined }

/-- The text delta an event carries: the `content` of its delta when that
is a string, nothing otherwise. -/
def Chunk.textDelta (chunk : Chunk) : String :=
  match chunk.choice0 with
  | some choice =>
    match choice.delta with
    | some delta =>
      match delta.content with
      | .text s => s
      | _ => ""
    | none => ""
  | none => ""

/-- The explicit done signal: `finish_reason` is `"stop"`. -/
def Chunk.isStop (chunk : Chunk) : Bool :=
  match chunk.choice0 with
  | some choice => decide (choice.finish_reason = some "stop")
  | none => false

/-- The concatenation, in arrival order, of the text deltas of the events. -/
def concatDeltas : List Chunk → String
  | [] => ""
  | chunk :: rest => chunk.textDelta ++ concatDeltas rest

/-- The specification's wording of the answer: the concatenation of the text
deltas of all events up to and including the terminal event. -/
def deltasThroughStop : List Chunk → String
  | [] => ""
  | chunk :: rest =>
    if chunk.isStop then chunk.textDelta else chunk.textDelta ++ deltasThroughStop rest

/-- The `answer` field of a response object. -/
def answerOf : Payload → Option String
  | [] => none
  | (key, .text s) :: rest => if key = "answer" then some s else answerOf rest
  | _ :: rest => answerOf rest

/-- A continuing event that carries the text `s`. -/
def textChunk (s : String) : Chunk :=
  { choice0 := some { delta := some { content := .text s }, finish_reason := none } }

/-- A terminal event (`finish_reason: "stop"`) whose delta carries the text `s`. -/
def stopChunkWith (s : String) : Chunk :=
  { choice0 := some { delta := some { content := .text s }, finish_reason := some "stop" } }

/-- A terminal event with the empty delta `{}`. -/
def stopChunk : Chunk :=
  { choice0 := some { delta := some { content := .undefined }, finish_reason := some "stop" } }

/-- The scenario of the specification: the search returns `threeHits`, one
fetch times out, and the generation stream is `Mito`, `sis`, stop. -/
def mitosisEnv : Env :=
  { flakyEnv with
    chatStream := fun _ => .ok [.ok (textChunk "Mito"), .ok (textChunk "sis"), .ok stopChunk] }

/-- A request body that carries only the message. -/
def mitosisBody : QueryBody :=
  { emptyBody with message := .str "What is mitosis?" }

/-- The documents of the per-hit results, flattened. -/
def evidenceDocs (sources : List BranchResult) : List Doc :=
  (filterBoolean sources).flatten

/-- The success payload of POST / in the scenario. -/
def mitosisRootPayload : Payload :=
  [("varkStyle", PValue.val (.str "visual")), ("answer", PValue.text "Mitosis"),
   ("sources", PValue.sources [{ title := some "A", link := some "https://a.example/mitosis",
                                 snippet := some "first" }]),
   ("followUpQuestions", PValue.json (.arr [.str "Q1", .str "Q2", .str "Q3"]))]

/-- The success payload of POST /kinesthetic in the scenario. -/
def mitosisKinestheticPayload : Payload :=
  [("varkStyle", PValue.val (.str "kinesthetic")), ("answer", PValue.text "Mitosis"),
   ("followUpQuestions", PValue.json (.arr [.str "Q1", .str "Q2", .str "Q3"]))]

/-- The per-hit results of the scenario: the second branch is absent and the
third carries the same link as the first. -/
def mitosisSources : List BranchResult :=
  [some [{ pageContent := String.mk (List.replicate 300 'a'),
           metadata := { title := some "A", link := some "https://a.example/mitosis",
                         snippet := some "first" } }],
   none,
   some [{ pageContent := String.mk (List.replicate 300 'a'),
           metadata := { title := some "A again", link := some "https://a.example/mitosis",
                         snippet := some "third" } }]]

/-- The streaming generation request POST / issues in the scenario. -/
def mitosisRequest : StreamRequest :=
  { system := .standard (.str "visual") (.str "What is mitosis?") (.bool false),
    user := .searchResults mitosisSources }

/-- The whitespace collapse as the specification words it, with a step
budget: at a whitespace character the whole maximal run it starts is replaced
with a single space, any other character is kept. -/
def collapseWithin : Nat → List Char → List Char
  | 0, _ => []
  | _ + 1, [] => []
  | n + 1, c :: cs =>
    if isJsSpace c then ' ' :: collapseWithin n (cs.dropWhile isJsSpace)
    else c :: collapseWithin n cs

/-- Every maximal run of whitespace characters is replaced with a single
space. One step is spent per character at most, so the length of the text is
budget enough. -/
def collapseWhitespace (cs : List Char) : List Char :=
  collapseWithin cs.length cs

/-- The event carries a delta object: `chunk.choices[0].delta` is truthy. -/
def Chunk.hasDelta (chunk : Chunk) : Bool :=
  match chunk.choice0 with
  | some choice => choice.delta.isSome
  | none => false

/-- The number of events whose `finish_reason` is `"stop"`. -/
def stopCount (chunks : List Chunk) : Nat :=
  (chunks.filter Chunk.isStop).length

/-- The number of responses sent. -/
def sentCount (events : List Event) : Nat :=
  (events.filter Event.isRespond).length

/-- Whether the event is a call of `res.status(200).json(...)`, whether or
not it could send its response. -/
def Event.isSuccessCall : Event → Bool
  | .respond status _ => status == 200
  | .respondAfterSent status _ => status == 200
  | _ => false

/-- The number of calls of `res.status(200).json(...)`. -/
def successCalls (events : List Event) : Nat :=
  (events.filter Event.isSuccessCall).length

/-- An event with the empty delta `{}` and `finish_reason: "length"`. -/
def lengthChunk : Chunk :=
  { choice0 := some { delta := some { content := .undefined }, finish_reason := some "length" } }

/-! # Theorems -/

set_option maxRecDepth 100000

/-! ## Deduplication of sources -/

theorem findIndexFrom_prefix {α : Type} (p : α → Bool) (x : α) (hx : p x = true)
    (pre xs : List α) (i : Nat) :
    findIndexFrom p (pre ++ x :: xs) i = some (i + pre.length) ↔ ∀ y ∈ pre, p y = false := by
  induction pre generalizing i with
  | nil => simp [findIndexFrom, hx]
  | cons a pre ih =>
    by_cases ha : p a = true
    · simp [findIndexFrom, ha]
    · have hstep := ih (i + 1)
      have hlen : i + 1 + pre.length = i + (pre.length + 1) := by omega
      simp only [List.cons_append, findIndexFrom, ha, List.length_cons, List.mem_cons,
        forall_eq_or_imp, hlen] at hstep ⊢
      simpa [ha] using hstep

theorem isFirstWithLink_iff (pre xs : List SearchHit) (x : SearchHit) :
    isFirstWithLink x pre.length (pre ++ x :: xs) = true ↔ ∀ y ∈ pre, y.link ≠ x.link := by
  have h := findIndexFrom_prefix (fun d : SearchHit => decide (d.link = x.link)) x
    (by simp) pre xs 0
  simp only [Nat.zero_add, decide_eq_false_iff_not] at h
  unfold isFirstWithLink findIndex
  rw [decide_eq_true_iff, eq_comm]
  exact h

theorem filterWithIndexFrom_eq_firstOccurrences (rest : List SearchHit) :
    ∀ (pre : List SearchHit) (seen : List (Option String)),
      (∀ l, l ∈ seen ↔ ∃ y ∈ pre, y.link = l) →
      filterWithIndexFrom isFirstWithLink (pre ++ rest) rest pre.length
        = firstOccurrences seen rest := by
  induction rest with
  | nil => intro pre seen _; rfl
  | cons x xs ih =>
    intro pre seen hseen
    have hself : pre ++ x :: xs = (pre ++ [x]) ++ xs := by simp
    have hlen : pre.length + 1 = (pre ++ [x]).length := by simp
    by_cases hmem : x.link ∈ seen
    · have hnot : ¬ (isFirstWithLink x pre.length (pre ++ x :: xs) = true) := by
        rw [isFirstWithLink_iff]
        obtain ⟨y, hy, hyl⟩ := (hseen _).1 hmem
        exact fun h => h y hy hyl
      simp only [filterWithIndexFrom, firstOccurrences, hnot, hmem, if_true, if_false]
      rw [hself, hlen]
      apply ih
      intro l
      rw [hseen]
      constructor
      · rintro ⟨y, hy, rfl⟩
        exact ⟨y, by simp [hy], rfl⟩
      · rintro ⟨y, hy, rfl⟩
        rcases List.mem_append.1 hy with h | h
        · exact ⟨y, h, rfl⟩
        · have : y = x := by simpa using h
          subst this
          exact (hseen _).1 hmem
    · have hyes : isFirstWithLink x pre.length (pre ++ x :: xs) = true := by
        rw [isFirstWithLink_iff]
        intro y hy hyl
        exact hmem ((hseen _).2 ⟨y, hy, hyl⟩)
      simp only [filterWithIndexFrom, firstOccurrences, hyes, hmem, if_true, if_false]
      congr 1
      rw [hself, hlen]
      apply ih
      intro l
      rw [List.mem_cons, hseen]
      constructor
      · rintro (rfl | ⟨y, hy, rfl⟩)
        · exact ⟨x, by simp, rfl⟩
        · exact ⟨y, by simp [hy], rfl⟩
      · rintro ⟨y, hy, rfl⟩
        rcases List.mem_append.1 hy with h | h
        · exact Or.inr ⟨y, h, rfl⟩
        · have : y = x := by simpa using h
          subst this
          exact Or.inl rfl

theorem firstOccurrences_links (l : List SearchHit) :
    ∀ seen : List (Option String),
      ((firstOccurrences seen l).map (fun e => e.link)).Nodup ∧
      ∀ e ∈ firstOccurrences seen l,
        e.link ∉ seen ∧ l.find? (fun d => decide (d.link = e.link)) = some e := by
  induction l with
  | nil => intro seen; simp [firstOccurrences]
  | cons x xs ih =>
    intro seen
    by_cases hmem : x.link ∈ seen
    · obtain ⟨hnd, hfirst⟩ := ih seen
      simp only [firstOccurrences, hmem, if_true]
      refine ⟨hnd, fun e he => ?_⟩
      obtain ⟨h1, h2⟩ := hfirst e he
      refine ⟨h1, ?_⟩
      have hne : ¬ x.link = e.link := fun h => h1 (h ▸ hmem)
      simp [List.find?, hne, h2]
    · obtain ⟨hnd, hfirst⟩ := ih (x.link :: seen)
      simp only [firstOccurrences, hmem, if_false]
      refine ⟨?_, fun e he => ?_⟩
      · rw [List.map_cons, List.nodup_cons]
        refine ⟨?_, hnd⟩
        intro hx
        obtain ⟨e, he, hel⟩ := List.mem_map.1 hx
        exact (hfirst e he).1 (by simp [hel])
      · rcases List.mem_cons.1 he with rfl | he
        · exact ⟨hmem, by simp [List.find?]⟩
        · obtain ⟨h1, h2⟩ := hfirst e he
          have hne : ¬ x.link = e.link := fun h => h1 (by simp [h])
          refine ⟨fun h => h1 (List.mem_cons_of_mem _ h), ?_⟩
          simp [List.find?, hne, h2]

theorem firstOccurrences_sublist (l : List SearchHit) :
    ∀ seen : List (Option String), (firstOccurrences seen l).Sublist l := by
  induction l with
  | nil => intro seen; simp [firstOccurrences]
  | cons x xs ih =>
    intro seen
    by_cases hmem : x.link ∈ seen
    · simpa [firstOccurrences, hmem] using (ih seen).cons x
    · simpa [firstOccurrences, hmem] using (ih (x.link :: seen)).cons₂ x

theorem firstOccurrences_covers (l : List SearchHit) :
    ∀ seen : List (Option String), ∀ e ∈ l,
      e.link ∈ seen ∨ ∃ k ∈ firstOccurrences seen l, k.link = e.link := by
  induction l with
  | nil => intro seen e he; cases he
  | cons x xs ih =>
    intro seen e he
    by_cases hmem : x.link ∈ seen
    · simp only [firstOccurrences, hmem, if_true]
      rcases List.mem_cons.1 he with rfl | he
      · exact Or.inl hmem
      · exact ih seen e he
    · simp only [firstOccurrences, hmem, if_false]
      rcases List.mem_cons.1 he with rfl | he
      · exact Or.inr ⟨e, by simp, rfl⟩
      · rcases ih (x.link :: seen) e he with h | ⟨k, hk, hkl⟩
        · rcases List.mem_cons.1 h with h | h
          · exact Or.inr ⟨x, by simp, h.symm⟩
          · exact Or.inl h
        · exact Or.inr ⟨k, List.mem_cons_of_mem _ hk, hkl⟩

theorem sourcesParsed_eq_firstOccurrences (sources : List BranchResult) :
    sourcesParsed sources = firstOccurrences [] (flattenSources sources) := by
  have h := filterWithIndexFrom_eq_firstOccurrences (flattenSources sources) [] [] (by simp)
  simpa [sourcesParsed, filterWithIndex] using h

/-- C1: the `sourcesParsed` list of POST / and POST /audio has pairwise
distinct links; it equals the flattened non-null groups with only the first
occurrence of every link kept, in the original order (it is a sublist of the
flattened list and every link of the flattened list is still represented);
and the entry that survives for a link is the first entry of the flattened
list carrying that link, whatever the snippets of the later ones are. -/
theorem sourcesParsed_dedup (sources : List BranchResult) :
    ((sourcesParsed sources).map (fun e => e.link)).Nodup ∧
    sourcesParsed sources = firstOccurrences [] (flattenSources sources) ∧
    (sourcesParsed sources).Sublist (flattenSources sources) ∧
    (∀ e ∈ flattenSources sources, ∃ k ∈ sourcesParsed sources, k.link = e.link) ∧
    (∀ k ∈ sourcesParsed sources,
      (flattenSources sources).find? (fun d => decide (d.link = k.link)) = some k) := by
  rw [sourcesParsed_eq_firstOccurrences]
  obtain ⟨hnd, hfirst⟩ := firstOccurrences_links (flattenSources sources) []
  refine ⟨hnd, rfl, firstOccurrences_sublist _ _, fun e he => ?_, fun k hk => (hfirst k hk).2⟩
  rcases firstOccurrences_covers (flattenSources sources) [] e he with h | h
  · cases h
  · exact h

/-! ## The search client -/

theorem includesChars_iff (needle : List Char) (hay : List Char) :
    includesChars needle hay = true ↔ needle <:+: hay := by
  induction hay with
  | nil =>
    simp only [includesChars, List.isPrefixOf_iff_prefix, List.infix_nil, List.prefix_nil]
  | cons c cs ih =>
    simp only [includesChars, Bool.or_eq_true, List.isPrefixOf_iff_prefix, ih,
      List.infix_cons_iff]

theorem searchWithSerper_total (env : Env) (query : String) (n : Nat) (hist : List Event) :
    ∃ results, searchWithSerper env query n hist = ([.serperSearch query n], .ok results) := by
  unfold searchWithSerper Run.tryCatch Run.bind Run.call
  cases hs : env.serper query n with
  | error e => exact ⟨[], by simp [Run.pure]⟩
  | ok response =>
    by_cases hok : response.ok = true
    · cases hb : response.body with
      | error e => exact ⟨[], by simp [hok, Run.ofExcept, Run.pure, Run.bind, hb]⟩
      | ok data =>
        exact ⟨data.organic.getD [], by simp [hok, Run.ofExcept, Run.pure, Run.bind, hb]⟩
    · exact ⟨[], by simp [hok, Run.throw, Run.pure]⟩

theorem searchWithSerper_not_ok (env : Env) (query : String) (n : Nat) (hist : List Event)
    (response : Response SerperData) (hs : env.serper query n = .ok response)
    (hok : response.ok = false) :
    searchWithSerper env query n hist = ([.serperSearch query n], .ok []) := by
  unfold searchWithSerper Run.tryCatch Run.bind Run.call
  simp [hs, hok, Run.throw, Run.pure]

/-- C5 (as stated, refuted): with a provider that answers 500,
`searchWithSerper` does not raise to its caller. -/
theorem searchWithSerper_raises_counterexample :
    ¬ (∀ (env : Env) (query : String) (n : Nat) (response : Response SerperData),
        env.serper query n = .ok response → response.ok = false →
        ∃ e, (searchWithSerper env query n []).2 = .error e) := by
  intro h
  obtain ⟨e, he⟩ := h serperDownEnv "what is mitosis" 4
    { status := 500, body := .error { message := "no body" } } rfl rfl
  rw [searchWithSerper_not_ok serperDownEnv "what is mitosis" 4 [] _ rfl rfl] at he
  cases he

/-- C5 (amended): when the search provider answers with a non-success HTTP
status, `searchWithSerper` makes the one provider call, raises nothing and
returns the empty result sequence; the request that issued it goes on:
`searchEngineForSources` returns an empty evidence list without fetching
anything. -/
theorem searchWithSerper_non_success_returns_empty (env : Env) (message : JSVal)
    (query : String) (n : Nat) (hist : List Event) (response : Response SerperData)
    (hr : env.chat (.rephrase message) = .ok query)
    (hs : env.serper query n = .ok response) (hok : response.ok = false) :
    searchWithSerper env query n hist = ([.serperSearch query n], .ok []) ∧
    searchEngineForSources env message n hist
      = ([.chat (.rephrase message), .serperSearch query n], .ok []) := by
  refine ⟨searchWithSerper_not_ok env query n hist response hs hok, ?_⟩
  unfold searchEngineForSources rephraseInput
  simp only [Run.bind, Run.call, hr]
  rw [searchWithSerper_not_ok env query n _ response hs hok]
  simp [normalizedData, promiseAll, Run.pure]

theorem searchWithSerper_non_success_returns_empty_witness :
    searchWithSerper serperDownEnv "what is mitosis" 4 []
      = ([.serperSearch "what is mitosis" 4], .ok []) ∧
    searchEngineForSources serperDownEnv (.str "What is mitosis?") 4 []
      = ([.chat (.rephrase (.str "What is mitosis?")), .serperSearch "what is mitosis" 4],
          .ok []) :=
  searchWithSerper_non_success_returns_empty serperDownEnv (.str "What is mitosis?")
    "what is mitosis" 4 [] { status := 500, body := .error { message := "no body" } }
    rfl rfl rfl

/-! ## The per-hit branch -/

theorem fetchPageContent_eq (env : Env) (link : Option String) (hist : List Event) :
    fetchPageContent env link hist = ([.fetchPage link], .ok (pageText env link)) := by
  unfold fetchPageContent pageText Run.tryCatch Run.bind Run.call
  cases hf : env.fetchPage link with
  | error e => simp [Run.pure]
  | ok response =>
    by_cases hok : response.ok = true
    · cases hb : response.body with
      | error e => simp [hok, Run.ofExcept, Run.pure, Run.bind, hb]
      | ok html => simp [hok, Run.ofExcept, Run.pure, Run.bind, hb]
    · simp [hok, Run.pure]

theorem processContent_hist (env : Env) (item : SearchHit) (text : String)
    (hist : List Event) :
    processContent env item text hist = processContent env item text [] := by
  unfold processContent Run.bind Run.call
  rfl

theorem processContent_split_error (env : Env) (item : SearchHit) (text : String)
    (hist : List Event) (e : JSError) (h : env.splitText text = .error e) :
    processContent env item text hist = ([.splitText text], .error e) := by
  unfold processContent Run.bind Run.call
  simp [h]

theorem processContent_embed_error (env : Env) (item : SearchHit) (text : String)
    (hist : List Event) (chunks : List String) (e : JSError)
    (h : env.splitText text = .ok chunks) (h2 : env.fromTexts chunks item = .error e) :
    processContent env item text hist
      = ([.splitText text, .fromTexts chunks item], .error e) := by
  unfold processContent Run.bind Run.call
  simp [h, h2]

theorem processContent_retrieve (env : Env) (item : SearchHit) (text : String)
    (hist : List Event) (chunks : List String)
    (h : env.splitText text = .ok chunks) (h2 : env.fromTexts chunks item = .ok ()) :
    processContent env item text hist
      = ([.splitText text, .fromTexts chunks item, .similaritySearch item.snippet 2],
          match env.similaritySearch chunks item item.snippet 2 with
          | .ok docs => .ok (some docs)
          | .error e => .error e) := by
  unfold processContent Run.bind Run.call
  simp only [h, h2]
  cases env.similaritySearch chunks item item.snippet 2 <;> simp [Run.pure]

theorem processContent_head (env : Env) (item : SearchHit) (text : String)
    (hist : List Event) :
    ∃ rest, (processContent env item text hist).1 = .splitText text :: rest ∧
      ∀ ev ∈ rest, ev.fetchedLink = none := by
  cases h : env.splitText text with
  | error e =>
    rw [processContent_split_error env item text hist e h]
    exact ⟨[], rfl, by simp⟩
  | ok chunks =>
    cases h2 : env.fromTexts chunks item with
    | error e =>
      rw [processContent_embed_error env item text hist chunks e h h2]
      exact ⟨_, rfl, by simp [Event.fetchedLink]⟩
    | ok u =>
      rw [processContent_retrieve env item text hist chunks h h2]
      exact ⟨_, rfl, by simp [Event.fetchedLink]⟩

theorem jsLength_empty : jsLength "" = 0 := rfl

theorem fetchAndProcess_short (env : Env) (item : SearchHit) (hist : List Event)
    (h : jsLength (pageText env item.link) < 250) :
    fetchAndProcess env item hist = ([.fetchPage item.link], .ok none) := by
  unfold fetchAndProcess Run.bind
  rw [fetchPageContent_eq]
  simp [h, Run.pure]

theorem fetchAndProcess_long (env : Env) (item : SearchHit) (hist : List Event)
    (h : 250 ≤ jsLength (pageText env item.link)) :
    fetchAndProcess env item hist
      = (.fetchPage item.link :: (processContent env item (pageText env item.link) []).1,
          match (processContent env item (pageText env item.link) []).2 with
          | .ok r => .ok r
          | .error _ => .ok none) := by
  have hne : pageText env item.link ≠ "" := by
    intro h0
    rw [h0, jsLength_empty] at h
    omega
  have hlt : ¬ jsLength (pageText env item.link) < 250 := by omega
  unfold fetchAndProcess Run.bind
  rw [fetchPageContent_eq]
  simp only [hne, hlt, decide_False, Bool.or_self, Bool.false_eq_true, if_false,
    decide_eq_true_eq, Run.tryCatch]
  rw [processContent_hist]
  cases hp : processContent env item (pageText env item.link) [] with
  | mk evs r =>
    cases r with
    | ok v => simp
    | error e => simp [Run.pure]

theorem fetchAndProcess_hist (env : Env) (item : SearchHit) (hist : List Event) :
    fetchAndProcess env item hist = fetchAndProcess env item [] := by
  by_cases h : jsLength (pageText env item.link) < 250
  · rw [fetchAndProcess_short env item hist h, fetchAndProcess_short env item [] h]
  · have h2 : 250 ≤ jsLength (pageText env item.link) := by omega
    rw [fetchAndProcess_long env item hist h2, fetchAndProcess_long env item [] h2]

theorem fetchAndProcess_total (env : Env) (item : SearchHit) (hist : List Event) :
    (fetchAndProcess env item hist).2 = .ok (branchResult env item) := by
  rw [fetchAndProcess_hist]
  unfold branchResult
  by_cases h : jsLength (pageText env item.link) < 250
  · rw [fetchAndProcess_short env item [] h]
  · have h2 : 250 ≤ jsLength (pageText env item.link) := by omega
    rw [fetchAndProcess_long env item [] h2]
    cases (processContent env item (pageText env item.link) []).2 <;> rfl

theorem fetchAndProcess_fetches (env : Env) (item : SearchHit) (hist : List Event) :
    (fetchAndProcess env item hist).1.filterMap Event.fetchedLink = [item.link] := by
  by_cases h : jsLength (pageText env item.link) < 250
  · rw [fetchAndProcess_short env item hist h]
    rfl
  · have h2 : 250 ≤ jsLength (pageText env item.link) := by omega
    rw [fetchAndProcess_long env item hist h2]
    obtain ⟨rest, hrest, hnone⟩ := processContent_head env item (pageText env item.link) []
    rw [hrest]
    simp only [List.filterMap_cons, Event.fetchedLink]
    rw [List.filterMap_eq_nil_iff.2 hnone]

theorem promiseAll_fetchAndProcess (env : Env) (hits : List SearchHit) :
    ∀ hist : List Event,
      (promiseAll (fetchAndProcess env) hits hist).2 = .ok (hits.map (branchResult env)) ∧
      (promiseAll (fetchAndProcess env) hits hist).1.filterMap Event.fetchedLink
        = hits.map (fun h => h.link) := by
  induction hits with
  | nil => intro hist; simp [promiseAll, Run.pure]
  | cons x xs ih =>
    intro hist
    have h1 := fetchAndProcess_total env x hist
    have h2 := fetchAndProcess_fetches env x hist
    cases hx : fetchAndProcess env x hist with
    | mk evs r =>
      rw [hx] at h1 h2
      simp only at h1 h2
      obtain ⟨ih1, ih2⟩ := ih (hist ++ evs)
      cases hrest : promiseAll (fetchAndProcess env) xs (hist ++ evs) with
      | mk evs2 rs =>
        rw [hrest] at ih1 ih2
        simp only at ih1 ih2
        simp only [promiseAll, hx, hrest, h1, ih1, List.filterMap_append, h2, ih2, List.map_cons]
        simp

/-- C9: `fetchPageContent` always resolves to a text. If that text has fewer
than 250 characters (JavaScript `length`, which is 0 for the empty text),
`fetchAndProcess` returns `null` and its only external call is the page
fetch: no split, no embedding, no similarity search. If it has 250 or more
(250 included) the branch goes on to the splitter with that text, and, when
splitting and embedding succeed, to the similarity search with the hit's
snippet and k = 2, whose documents it returns. -/
theorem fetchAndProcess_length_guard (env : Env) (item : SearchHit) (hist : List Event) :
    fetchPageContent env item.link hist
      = ([.fetchPage item.link], .ok (pageText env item.link)) ∧
    (jsLength (pageText env item.link) < 250 →
      fetchAndProcess env item hist = ([.fetchPage item.link], .ok none)) ∧
    (250 ≤ jsLength (pageText env item.link) →
      (∃ rest, (fetchAndProcess env item hist).1
          = .fetchPage item.link :: .splitText (pageText env item.link) :: rest) ∧
      ∀ chunks, env.splitText (pageText env item.link) = .ok chunks →
        env.fromTexts chunks item = .ok () →
        fetchAndProcess env item hist
          = ([.fetchPage item.link, .splitText (pageText env item.link),
              .fromTexts chunks item, .similaritySearch item.snippet 2],
             match env.similaritySearch chunks item item.snippet 2 with
             | .ok docs => .ok (some docs)
             | .error _ => .ok none)) := by
  refine ⟨fetchPageContent_eq env item.link hist, fetchAndProcess_short env item hist, ?_⟩
  intro h
  rw [fetchAndProcess_long env item hist h]
  refine ⟨?_, fun chunks hs he => ?_⟩
  · obtain ⟨rest, hrest, _⟩ := processContent_head env item (pageText env item.link) []
    exact ⟨rest, by rw [hrest]⟩
  · rw [processContent_retrieve env item (pageText env item.link) [] chunks hs he]
    cases env.similaritySearch chunks item item.snippet 2 <;> rfl

theorem fetchAndProcess_length_guard_witness :
    (jsLength (pageText (pageEnv 249) sampleHit.link) = 249 ∧
      fetchAndProcess (pageEnv 249) sampleHit []
        = ([.fetchPage sampleHit.link], .ok none)) ∧
    (jsLength (pageText (pageEnv 250) sampleHit.link) = 250 ∧
      fetchAndProcess (pageEnv 250) sampleHit []
        = ([.fetchPage sampleHit.link, .splitText (String.mk (List.replicate 250 'a')),
            .fromTexts [String.mk (List.replicate 250 'a')] sampleHit,
            .similaritySearch sampleHit.snippet 2],
           .ok (some [{ pageContent := String.mk (List.replicate 250 'a'),
                        metadata := sampleHit }]))) :=
  ⟨⟨by decide,
    (fetchAndProcess_length_guard (pageEnv 249) sampleHit []).2.1 (by decide)⟩,
   ⟨by decide,
    ((fetchAndProcess_length_guard (pageEnv 250) sampleHit []).2.2 (by decide)).2
      [String.mk (List.replicate 250 'a')]
      (congrArg (fun t => Except.ok [t])
        (by decide : pageText (pageEnv 250) sampleHit.link
          = String.mk (List.replicate 250 'a')))
      rfl⟩⟩

/-! ## Normalization of the search results -/

theorem keepResult_iff (result : SearchResult) :
    keepResult result = true ↔
      ∃ link, result.link = some link ∧ link ≠ "" ∧
        ¬ ("google.com".toList <:+: link.toList) := by
  unfold keepResult
  cases hl : result.link with
  | none => simp
  | some link =>
    simp only [Bool.and_eq_true, bne_iff_ne, ne_eq, Bool.not_eq_true', Option.some.injEq,
      exists_eq_left']
    rw [← Bool.not_eq_true, jsIncludes, includesChars_iff]

theorem searchWithSerper_hist (env : Env) (query : String) (n : Nat) (hist : List Event) :
    searchWithSerper env query n hist = searchWithSerper env query n [] := by
  unfold searchWithSerper Run.tryCatch Run.bind Run.call
  cases hq : env.serper query n with
  | error e => rfl
  | ok response =>
    by_cases hok : response.ok = true
    · cases hb : response.body with
      | error e => simp [hok, hb, Run.ofExcept, Run.pure, Run.bind]
      | ok data => simp [hok, hb, Run.ofExcept, Run.pure, Run.bind]
    · simp [hok, Run.throw, Run.pure]

theorem searchEngineForSources_unfold (env : Env) (message : JSVal) (query : String)
    (n : Nat) (hist : List Event) (results : List SearchResult)
    (hr : env.chat (.rephrase message) = .ok query)
    (hs : (searchWithSerper env query n []).2 = .ok results) :
    searchEngineForSources env message n hist
      = (.chat (.rephrase message) :: .serperSearch query n ::
          (promiseAll (fetchAndProcess env) (normalizedData results)
            (hist ++ [.chat (.rephrase message)] ++ [.serperSearch query n])).1,
         (promiseAll (fetchAndProcess env) (normalizedData results)
            (hist ++ [.chat (.rephrase message)] ++ [.serperSearch query n])).2) := by
  obtain ⟨rs, hrs⟩ := searchWithSerper_total env query n (hist ++ [.chat (.rephrase message)])
  have hsame : rs = results := by
    have h0 := searchWithSerper_hist env query n (hist ++ [.chat (.rephrase message)])
    rw [hrs] at h0
    rw [← h0] at hs
    simpa using hs
  subst hsame
  unfold searchEngineForSources rephraseInput
  simp only [Run.bind, Run.call, hr, hrs]
  rfl

/-- C10 (as stated, refuted): a result whose link points at another domain
(`example.org`) but mentions `google.com` in its query string is dropped. -/
theorem normalizedData_other_domain_counterexample :
    ¬ (∀ (searchResults : List SearchResult) (result : SearchResult) (link : String),
        result ∈ searchResults → result.link = some link → link ≠ "" →
        pointsAtSearchProvider link = false →
        projectResult result ∈ normalizedData searchResults) := by
  intro h
  have hmem := h [mentionResult, plainResult] mentionResult "https://example.org/?q=google.com"
    (by simp) rfl (by decide) (by decide)
  revert hmem
  decide

/-- C10 (amended): the hits passed on to fetching are exactly the results
whose link is a non-empty string that does not contain the text `google.com`
anywhere (host, path or query), in their original order, each projected to
`{title, link, snippet}`; such a result is never dropped, and one page fetch
is issued per surviving hit, in order, for exactly these links. -/
theorem normalizedData_substring_filter (env : Env) (message : JSVal) (query : String)
    (n : Nat) (hist : List Event) (searchResults : List SearchResult)
    (hr : env.chat (.rephrase message) = .ok query)
    (hs : (searchWithSerper env query n []).2 = .ok searchResults) :
    (∀ hit, hit ∈ normalizedData searchResults ↔
      ∃ result ∈ searchResults, hit = projectResult result ∧
        ∃ link, result.link = some link ∧ link ≠ "" ∧
          ¬ ("google.com".toList <:+: link.toList)) ∧
    (normalizedData searchResults).Sublist (searchResults.map projectResult) ∧
    (searchEngineForSources env message n hist).1.filterMap Event.fetchedLink
      = (normalizedData searchResults).map (fun hit => hit.link) := by
  refine ⟨fun hit => ?_, ?_, ?_⟩
  · simp only [normalizedData, List.mem_map, List.mem_filter, keepResult_iff]
    constructor
    · rintro ⟨r, ⟨hr1, hr2⟩, rfl⟩
      exact ⟨r, hr1, rfl, hr2⟩
    · rintro ⟨r, hr1, rfl, hr2⟩
      exact ⟨r, ⟨hr1, hr2⟩, rfl⟩
  · exact List.Sublist.map _ (List.filter_sublist _)
  · rw [searchEngineForSources_unfold env message query n hist searchResults hr hs]
    simp only [List.filterMap_cons, Event.fetchedLink]
    exact (promiseAll_fetchAndProcess env (normalizedData searchResults) _).2

theorem normalizedData_substring_filter_witness :
    (∀ hit, hit ∈ normalizedData [mentionResult, plainResult] ↔
      ∃ result ∈ [mentionResult, plainResult], hit = projectResult result ∧
        ∃ link, result.link = some link ∧ link ≠ "" ∧
          ¬ ("google.com".toList <:+: link.toList)) ∧
    (normalizedData [mentionResult, plainResult]).Sublist
      ([mentionResult, plainResult].map projectResult) ∧
    (searchEngineForSources mentionEnv (.str "What is mitosis?") 4 []).1.filterMap
        Event.fetchedLink
      = (normalizedData [mentionResult, plainResult]).map (fun hit => hit.link) :=
  normalizedData_substring_filter mentionEnv (.str "What is mitosis?") "what is mitosis" 4 []
    [mentionResult, plainResult] rfl rfl

/-! ## Partial-failure tolerance of the fan-out -/

theorem processContent_ok_some (env : Env) (item : SearchHit) (text : String)
    (r : BranchResult) (h : (processContent env item text []).2 = .ok r) : r ≠ none := by
  cases hs : env.splitText text with
  | error e =>
    rw [processContent_split_error env item text [] e hs] at h
    cases h
  | ok chunks =>
    cases h2 : env.fromTexts chunks item with
    | error e =>
      rw [processContent_embed_error env item text [] chunks e hs h2] at h
      cases h
    | ok u =>
      rw [processContent_retrieve env item text [] chunks hs h2] at h
      cases h3 : env.similaritySearch chunks item item.snippet 2 with
      | error e => rw [h3] at h; cases h
      | ok docs =>
        rw [h3] at h
        simp only [Except.ok.injEq] at h
        rw [← h]
        simp

theorem branchFails_of_long (env : Env) (item : SearchHit)
    (h : 250 ≤ jsLength (pageText env item.link)) :
    branchFails env item = true ↔
      ∃ e, (processContent env item (pageText env item.link) []).2 = .error e := by
  unfold branchFails
  unfold pageText at h ⊢
  cases hf : env.fetchPage item.link with
  | error e => rw [hf] at h; simp only [jsLength_empty] at h; omega
  | ok response =>
    rw [hf] at h
    simp only at h ⊢
    by_cases hok : response.ok = true
    · simp only [hok, Bool.not_true, Bool.false_eq_true, if_false] at h ⊢
      cases hb : response.body with
      | error e => rw [hb] at h; simp only [jsLength_empty] at h; omega
      | ok html =>
        rw [hb] at h
        simp only at h ⊢
        cases hc : env.cheerio html with
        | error e =>
          simp only [extractMainContent, hc, jsLength_empty] at h
          omega
        | ok page =>
          simp only [h, decide_True, Bool.true_and]
          cases (processContent env item (extractMainContent env html) []).2 <;> simp
    · simp only [hok, Bool.not_false, if_true, jsLength_empty] at h
      omega

theorem branchResult_none_iff (env : Env) (item : SearchHit) :
    branchResult env item = none ↔
      (branchFails env item = true ∨ jsLength (pageText env item.link) < 250) := by
  by_cases h : jsLength (pageText env item.link) < 250
  · unfold branchResult
    rw [fetchAndProcess_short env item [] h]
    simp [h]
  · have h2 : 250 ≤ jsLength (pageText env item.link) := by omega
    rw [branchFails_of_long env item h2]
    unfold branchResult
    rw [fetchAndProcess_long env item [] h2]
    cases hp : (processContent env item (pageText env item.link) []).2 with
    | error e => simp
    | ok r =>
      have := processContent_ok_some env item _ r hp
      simp [h, this]

theorem filterBoolean_length (env : Env) (hits : List SearchHit) :
    (filterBoolean (hits.map (branchResult env))).length
      = (hits.filter (fun item =>
          !(branchFails env item) && decide (250 ≤ jsLength (pageText env item.link)))).length := by
  induction hits with
  | nil => rfl
  | cons x xs ih =>
    unfold filterBoolean at ih ⊢
    cases hx : branchResult env x with
    | none =>
      have hcond := (branchResult_none_iff env x).1 hx
      have : (!(branchFails env x) && decide (250 ≤ jsLength (pageText env x.link))) = false := by
        rcases hcond with h | h
        · simp [h]
        · have : ¬ 250 ≤ jsLength (pageText env x.link) := by omega
          simp [this]
      simp only [List.map_cons, hx, List.filterMap_cons_none, id_eq, List.filter_cons, this,
        Bool.false_eq_true, if_false]
      exact ih
    | some docs =>
      have hcond : ¬ (branchFails env x = true ∨ jsLength (pageText env x.link) < 250) := by
        rw [← branchResult_none_iff, hx]
        simp
      have : (!(branchFails env x) && decide (250 ≤ jsLength (pageText env x.link))) = true := by
        have h1 : branchFails env x = false := by
          cases hb : branchFails env x
          · rfl
          · exact absurd (Or.inl hb) hcond
        have h2 : 250 ≤ jsLength (pageText env x.link) := by
          by_contra hlt
          exact hcond (Or.inr (by omega))
        simp [h1, h2]
      simp only [List.map_cons, hx, List.filter_cons, this, if_true, List.length_cons]
      rw [List.filterMap_cons_some (by rfl : id (some docs) = some docs)]
      simp only [List.length_cons]
      rw [ih]

/-- C2 (as stated, refuted): a page that is fetched with status 200 and
extracted without any failure, but is shorter than 250 characters, yields
`null` although the branch did not fail. -/
theorem branch_null_exactly_failed_counterexample :
    ¬ (∀ (env : Env) (item : SearchHit),
        branchResult env item = none ↔ branchFails env item = true) := by
  intro h
  have h1 : branchResult shortPageEnv sampleHit = none := by decide
  have h2 : branchFails shortPageEnv sampleHit = false := by decide
  rw [(h shortPageEnv sampleHit).1 h1] at h2
  cases h2

/-- C2 (amended): for every list of N filtered hits the fan-out does not
raise; it returns a list of length N, in hit order, whose entry for a hit
depends on that hit alone and is `null` exactly when its branch failed
(fetch threw, response not 2xx, extraction failed, or chunking, embedding or
retrieval threw) or its extracted text is shorter than 250 characters; after
`filter(Boolean)` exactly the other hits remain; and `searchEngineForSources`
returns that list whenever rephrasing succeeded. -/
theorem fanout_partial_failure (env : Env) (hits : List SearchHit) (hist : List Event) :
    (promiseAll (fetchAndProcess env) hits hist).2 = .ok (hits.map (branchResult env)) ∧
    (hits.map (branchResult env)).length = hits.length ∧
    (∀ item, branchResult env item = none ↔
      (branchFails env item = true ∨ jsLength (pageText env item.link) < 250)) ∧
    (filterBoolean (hits.map (branchResult env))).length
      = (hits.filter (fun item =>
          !(branchFails env item) && decide (250 ≤ jsLength (pageText env item.link)))).length ∧
    (∀ (message : JSVal) (query : String) (n : Nat),
      env.chat (.rephrase message) = .ok query →
      ∃ results, (searchWithSerper env query n []).2 = .ok results ∧
        (searchEngineForSources env message n hist).2
          = .ok ((normalizedData results).map (branchResult env))) := by
  refine ⟨(promiseAll_fetchAndProcess env hits hist).1, List.length_map _ _,
    branchResult_none_iff env, filterBoolean_length env hits, ?_⟩
  intro message query n hr
  obtain ⟨results, hres⟩ := searchWithSerper_total env query n []
  have hs : (searchWithSerper env query n []).2 = .ok results := by rw [hres]
  refine ⟨results, hs, ?_⟩
  rw [searchEngineForSources_unfold env message query n hist results hr hs]
  exact (promiseAll_fetchAndProcess env _ _).1

theorem fanout_partial_failure_witness :
    (promiseAll (fetchAndProcess flakyEnv) threeHits []).2
      = .ok (threeHits.map (branchResult flakyEnv)) ∧
    threeHits.map (branchResult flakyEnv)
      = [some [{ pageContent := String.mk (List.replicate 300 'a'),
                 metadata := { title := some "A", link := some "https://a.example/mitosis",
                               snippet := some "first" } }],
         none,
         some [{ pageContent := String.mk (List.replicate 300 'a'),
                 metadata := { title := some "A again",
                               link := some "https://a.example/mitosis",
                               snippet := some "third" } }]] ∧
    (searchEngineForSources flakyEnv (.str "What is mitosis?") 4 []).2
      = .ok (threeHits.map (branchResult flakyEnv)) :=
  ⟨(fanout_partial_failure flakyEnv threeHits []).1, by decide,
   by
    obtain ⟨results, h1, h2⟩ := (fanout_partial_failure flakyEnv threeHits []).2.2.2.2
      (.str "What is mitosis?") "what is mitosis" 4 rfl
    have hres : results = threeHits.map (fun h =>
        { title := h.title, link := h.link, snippet := h.snippet, extra := [] }) := by
      have h0 : (searchWithSerper flakyEnv "what is mitosis" 4 []).2
          = .ok (threeHits.map (fun h =>
            { title := h.title, link := h.link, snippet := h.snippet, extra := [] })) := rfl
      rw [h0] at h1
      simpa using h1.symm
    rw [h2, hres]
    rfl⟩

/-! ## Follow-up generation -/

theorem generateVarkStyleFollowUpQuestions_eq (env : Env) (responseText : String)
    (varkStyle : JSVal) (hist : List Event) :
    generateVarkStyleFollowUpQuestions env responseText varkStyle hist
      = ([.chat (.followUps responseText varkStyle)],
          match env.chat (.followUps responseText varkStyle) with
          | .ok text => env.jsonParse text
          | .error e => .error e) := by
  unfold generateVarkStyleFollowUpQuestions Run.bind Run.call Run.ofExcept
  cases env.chat (.followUps responseText varkStyle) <;> simp

/-- C4 (as stated, refuted): when the generated text is `[]`, the function
returns the empty sequence without raising. -/
theorem followUps_arity_counterexample :
    ¬ (∀ (env : Env) (responseText : String) (varkStyle : JSVal),
        threeItemsOrRaises
          (generateVarkStyleFollowUpQuestions env responseText varkStyle []).2) := by
  intro h
  have h0 := h emptyListEnv "Mitosis is cell division." (.str "visual")
  rw [generateVarkStyleFollowUpQuestions_eq] at h0
  have h1 : ([] : List JSON).length = 3 := h0
  exact absurd h1 (by decide)

/-- C4 (amended): `generateVarkStyleFollowUpQuestions` makes one generation
call and returns exactly what `JSON.parse` yields for the generated text,
whatever its shape or number of items; it raises exactly when the generation
call or `JSON.parse` raises. It does not check for three items. -/
theorem followUps_returns_parsed_text (env : Env) (responseText : String)
    (varkStyle : JSVal) (hist : List Event) (text : String)
    (hgen : env.chat (.followUps responseText varkStyle) = .ok text) :
    generateVarkStyleFollowUpQuestions env responseText varkStyle hist
      = ([.chat (.followUps responseText varkStyle)], env.jsonParse text) ∧
    (∀ value, env.jsonParse text = .ok value →
      (generateVarkStyleFollowUpQuestions env responseText varkStyle hist).2 = .ok value) ∧
    (∀ e, env.jsonParse text = .error e →
      (generateVarkStyleFollowUpQuestions env responseText varkStyle hist).2 = .error e) := by
  rw [generateVarkStyleFollowUpQuestions_eq, hgen]
  exact ⟨rfl, fun _ h => h, fun _ h => h⟩

theorem followUps_returns_parsed_text_witness :
    generateVarkStyleFollowUpQuestions flakyEnv "Mitosis is cell division." (.str "visual") []
      = ([.chat (.followUps "Mitosis is cell division." (.str "visual"))],
          flakyEnv.jsonParse "[\"Q1\", \"Q2\", \"Q3\"]") ∧
    (∀ value, flakyEnv.jsonParse "[\"Q1\", \"Q2\", \"Q3\"]" = .ok value →
      (generateVarkStyleFollowUpQuestions flakyEnv "Mitosis is cell division."
        (.str "visual") []).2 = .ok value) ∧
    (∀ e, flakyEnv.jsonParse "[\"Q1\", \"Q2\", \"Q3\"]" = .error e →
      (generateVarkStyleFollowUpQuestions flakyEnv "Mitosis is cell division."
        (.str "visual") []).2 = .error e) :=
  followUps_returns_parsed_text flakyEnv "Mitosis is cell division." (.str "visual") []
    "[\"Q1\", \"Q2\", \"Q3\"]" rfl

/-! ## Missing required fields -/

theorem bind_call_head {α β : Type} (ev : Event) (r : Except JSError α) (f : α → Run β)
    (hist : List Event) : ∃ rest, (Run.bind (Run.call ev r) f hist).1 = ev :: rest := by
  unfold Run.bind Run.call
  cases r with
  | error e => exact ⟨[], rfl⟩
  | ok a => exact ⟨_, rfl⟩

theorem bind_head {α β : Type} (m : Run α) (f : α → Run β) (hist : List Event) (ev : Event)
    (h : ∃ rest, (m hist).1 = ev :: rest) : ∃ rest, (Run.bind m f hist).1 = ev :: rest := by
  obtain ⟨rest, hrest⟩ := h
  unfold Run.bind
  cases hm : m hist with
  | mk evs r =>
    rw [hm] at hrest
    simp only at hrest
    subst hrest
    cases r with
    | error e => exact ⟨rest, rfl⟩
    | ok a => exact ⟨_, rfl⟩

theorem tryCatch_head {α : Type} (m : Run α) (handler : JSError → Run α) (hist : List Event)
    (ev : Event) (h : ∃ rest, (m hist).1 = ev :: rest) :
    ∃ rest, (Run.tryCatch m handler hist).1 = ev :: rest := by
  obtain ⟨rest, hrest⟩ := h
  unfold Run.tryCatch
  cases hm : m hist with
  | mk evs r =>
    rw [hm] at hrest
    simp only at hrest
    subst hrest
    cases r with
    | error e => exact ⟨_, rfl⟩
    | ok a => exact ⟨rest, rfl⟩

/-- C8 (the code at the failing inputs): with `message` missing, POST / and
POST /audio start by calling the generation capability to rephrase
`undefined`, and POST /kinesthetic and POST /diagram start by calling the
streaming generation capability; no handler rejects the request first. Only
POST /result rejects a missing `preference` with status 400 before any
external call. -/
theorem missing_message_not_rejected (env : Env) (body : QueryBody) (userId : String) :
    (∃ rest, (postRoot env { body with message := .undefined } []).1
      = .chat (.rephrase .undefined) :: rest) ∧
    (∃ rest, (postAudio env { body with message := .undefined } []).1
      = .chat (.rephrase .undefined) :: rest) ∧
    (∃ rest, (postKinesthetic env { body with message := .undefined } []).1
      = .chatStream { system := .kinesthetic .undefined, user := .query .undefined } :: rest) ∧
    (∃ rest, (postDiagram env { body with message := .undefined } []).1
      = .chatStream { system := .diagram, user := .topic .undefined } :: rest) ∧
    postResult env userId { preference := .undefined } []
      = ([.respond 400 [("message", PValue.text "Missing required field: preference")]],
          .ok ()) := by
  refine ⟨?_, ?_, ?_, ?_, rfl⟩
  · unfold postRoot evidenceHandler
    apply tryCatch_head
    apply bind_head
    unfold searchEngineForSources rephraseInput
    exact bind_call_head _ _ _ _
  · unfold postAudio evidenceHandler
    apply tryCatch_head
    apply bind_head
    unfold searchEngineForSources rephraseInput
    exact bind_call_head _ _ _ _
  · unfold postKinesthetic
    apply tryCatch_head
    exact bind_call_head _ _ _ _
  · unfold postDiagram
    apply tryCatch_head
    exact bind_call_head _ _ _ _

/-! ## The streaming loop -/

theorem followUpSpread_eq (env : Env) (flag : JSVal) (total : String) (style : JSVal)
    (hist : List Event) :
    followUpSpread env flag total style hist
      = if flag.truthy then
          ([.chat (.followUps total style)],
            match env.chat (.followUps total style) with
            | .ok text =>
              match env.jsonParse text with
              | .ok questions => .ok [("followUpQuestions", PValue.json questions)]
              | .error e => .error e
            | .error e => .error e)
        else ([], .ok []) := by
  unfold followUpSpread
  by_cases hf : flag.truthy = true
  · simp only [hf, if_true]
    unfold Run.bind
    rw [generateVarkStyleFollowUpQuestions_eq]
    cases env.chat (.followUps total style) with
    | error e => rfl
    | ok text =>
      cases hj : env.jsonParse text with
      | error e => simp [hj]
      | ok questions => simp [hj, Run.pure]
  · simp [hf, Run.pure]

theorem followUpSpread_hist (env : Env) (flag : JSVal) (total : String) (style : JSVal)
    (hist : List Event) :
    followUpSpread env flag total style hist = followUpSpread env flag total style [] := by
  rw [followUpSpread_eq, followUpSpread_eq]

theorem followUpSpread_events (env : Env) (flag : JSVal) (total : String) (style : JSVal)
    (hist : List Event) :
    ∀ ev ∈ (followUpSpread env flag total style hist).1,
      ev = .chat (.followUps total style) := by
  rw [followUpSpread_eq]
  by_cases hf : flag.truthy = true <;> simp [hf]

theorem streamLoop_terminal (env : Env) (style : JSVal) (spread : Payload) (flag : JSVal)
    (choice : Choice) (rest : GenStream) (total : String)
    (h : choice.continues = false) :
    streamLoop env style spread flag (.ok { choice0 := some choice } :: rest) total
      = Run.bind (followUpSpread env flag total style) (fun followUps =>
          Run.bind
            (respond 200 ([("varkStyle", PValue.val style),
              ("answer", PValue.text total)] ++ spread ++ followUps))
            (fun _ => streamLoop env style spread flag rest total)) := by
  simp [streamLoop, h]

theorem streamLoop_step (env : Env) (style : JSVal) (spread : Payload) (flag : JSVal)
    (choice : Choice) (rest : GenStream) (total : String)
    (h : choice.continues = true) :
    streamLoop env style spread flag (.ok { choice0 := some choice } :: rest) total
      = streamLoop env style spread flag rest (total ++ choice.deltaContent.toJsString) := by
  simp [streamLoop, h]

theorem any_isRespond_append_chat (hist evs : List Event) (req : ChatRequest)
    (h : ∀ ev ∈ evs, ev = .chat req) :
    (hist ++ evs).any Event.isRespond = hist.any Event.isRespond := by
  rw [List.any_append]
  have : evs.any Event.isRespond = false := by
    rw [List.any_eq_false]
    intro ev hev
    rw [h ev hev]
    simp [Event.isRespond]
  rw [this, Bool.or_false]

theorem streamLoop_after_sent (env : Env) (style : JSVal) (spread : Payload) (flag : JSVal)
    (items : GenStream) :
    ∀ (total : String) (hist : List Event), hist.any Event.isRespond = true →
      ∀ ev ∈ (streamLoop env style spread flag items total hist).1, ev.isRespond = false := by
  induction items with
  | nil => intro total hist _ ev hev; simp [streamLoop, Run.pure] at hev
  | cons item rest ih =>
    intro total hist hsent ev hev
    cases item with
    | error e => simp [streamLoop, Run.throw] at hev
    | ok chunk =>
      cases chunk with
      | mk choice0 =>
        cases choice0 with
        | none => simp [streamLoop, Run.throw] at hev
        | some choice =>
          by_cases hc : choice.continues = true
          · rw [streamLoop_step env style spread flag choice rest total hc] at hev
            exact ih _ hist hsent ev hev
          · have hc2 : choice.continues = false := by simpa using hc
            rw [streamLoop_terminal env style spread flag choice rest total hc2] at hev
            have hfu := followUpSpread_events env flag total style hist
            have hany := any_isRespond_append_chat hist
              (followUpSpread env flag total style hist).1 _ hfu
            unfold Run.bind at hev
            cases hf : followUpSpread env flag total style hist with
            | mk evs r =>
              rw [hf] at hev hfu hany
              simp only at hfu hany
              cases r with
              | error e =>
                simp only at hev
                rw [hfu ev hev]
                rfl
              | ok followUps =>
                simp only [respond, hany, hsent, if_true] at hev
                rcases List.mem_append.1 hev with h1 | h1
                · rw [hfu ev h1]
                  rfl
                · simp only [List.mem_singleton] at h1
                  rw [h1]
                  rfl

theorem streamLoop_continuing (env : Env) (style : JSVal) (spread : Payload) (flag : JSVal)
    (tail : GenStream) (hist : List Event) (pre : List Chunk) :
    ∀ total : String,
      (∀ c ∈ pre, ∃ s fr, c = ⟨some ⟨some ⟨.text s⟩, fr⟩⟩ ∧ fr ≠ some "stop") →
      streamLoop env style spread flag (pre.map .ok ++ tail) total hist
        = streamLoop env style spread flag tail (total ++ concatDeltas pre) hist := by
  induction pre with
  | nil => intro total _; simp [concatDeltas]
  | cons c cs ih =>
    intro total hpre
    obtain ⟨s, fr, hc, hfr⟩ := hpre c (by simp)
    subst hc
    have hcont : Choice.continues ⟨some ⟨.text s⟩, fr⟩ = true := by
      simp [Choice.continues, hfr]
    simp only [List.map_cons, List.cons_append]
    rw [streamLoop_step env style spread flag _ _ total hcont]
    rw [ih _ (fun c hc => hpre c (List.mem_cons_of_mem _ hc))]
    simp [concatDeltas, Chunk.textDelta, Choice.deltaContent, DeltaContent.toJsString,
      String.append_assoc]

theorem answerOf_payload (style : JSVal) (total : String) (more : Payload) :
    answerOf ([("varkStyle", PValue.val style), ("answer", PValue.text total)] ++ more)
      = some total := by
  simp [answerOf]

theorem respond_fresh (status : Nat) (payload : Payload) (hist : List Event)
    (h : hist.any Event.isRespond = false) :
    respond status payload hist = ([.respond status payload], .ok ()) := by
  simp [respond, h]

theorem streamLoop_at_terminal (env : Env) (style : JSVal) (spread : Payload) (flag : JSVal)
    (choice : Choice) (rest : GenStream) (total : String) (hist : List Event)
    (followUps : Payload)
    (hterm : choice.continues = false)
    (hsent : hist.any Event.isRespond = false)
    (hfollow : (followUpSpread env flag total style []).2 = .ok followUps) :
    ∃ before after,
      (streamLoop env style spread flag (.ok { choice0 := some choice } :: rest) total hist).1
        = before ++ .respond 200 ([("varkStyle", PValue.val style),
            ("answer", PValue.text total)] ++ spread ++ followUps) :: after ∧
      (∀ ev ∈ before, ev.isRespond = false) ∧ (∀ ev ∈ after, ev.isRespond = false) := by
  rw [streamLoop_terminal env style spread flag choice rest total hterm]
  have hfu := followUpSpread_events env flag total style hist
  have hany := any_isRespond_append_chat hist (followUpSpread env flag total style hist).1 _ hfu
  rw [← followUpSpread_hist env flag total style hist] at hfollow
  unfold Run.bind
  cases hf : followUpSpread env flag total style hist with
  | mk evs r =>
    rw [hf] at hfu hany hfollow
    simp only at hfu hany hfollow
    subst hfollow
    simp only
    rw [respond_fresh _ _ _ (hany.trans hsent)]
    simp only
    refine ⟨evs, _, rfl, ?_, ?_⟩
    · intro ev hev
      rw [hfu ev hev]
      rfl
    · apply streamLoop_after_sent
      simp [Event.isRespond]

/-- C3 (as stated, refuted): on the stream `"Hi"`, then a terminal event
whose delta carries `"!"`, the emitted answer is `"Hi"`, not `"Hi!"`. -/
theorem streamLoop_answer_counterexample :
    ¬ (∀ (env : Env) (style : JSVal) (spread : Payload) (flag : JSVal) (chunks : List Chunk)
        (payload : Payload),
        Event.respond 200 payload
            ∈ (streamLoop env style spread flag (chunks.map .ok) "" []).1 →
        answerOf payload = some (deltasThroughStop chunks)) := by
  intro h
  have h0 := h offlineEnv (.str "visual") [] (.bool false)
    [textChunk "Hi", stopChunkWith "!"]
    [("varkStyle", PValue.val (.str "visual")), ("answer", PValue.text "Hi")]
    (List.Mem.head _)
  revert h0
  decide

/-- C3 (amended): for every finite stream whose events before the first
terminal event (an event without a delta or with `finish_reason` `"stop"`)
all carry a text delta, the `answer` emitted in the response equals exactly
the concatenation, in arrival order, of the text deltas of the events
received before the terminal event; the terminal event's own delta is not
appended. One response is sent, at that event, and nothing after it is. -/
theorem streamLoop_answer_is_concat_before_terminal (env : Env) (style : JSVal)
    (spread : Payload) (flag : JSVal) (pre : List Chunk) (choice : Choice) (rest : GenStream)
    (hist : List Event) (followUps : Payload)
    (hpre : ∀ c ∈ pre, ∃ s fr, c = ⟨some ⟨some ⟨.text s⟩, fr⟩⟩ ∧ fr ≠ some "stop")
    (hterm : choice.continues = false)
    (hsent : hist.any Event.isRespond = false)
    (hfollow : (followUpSpread env flag (concatDeltas pre) style []).2 = .ok followUps) :
    (∃ payload,
      Event.respond 200 payload
        ∈ (streamLoop env style spread flag
            (pre.map .ok ++ .ok { choice0 := some choice } :: rest) "" hist).1 ∧
      answerOf payload = some (concatDeltas pre)) ∧
    (∀ status payload,
      Event.respond status payload
        ∈ (streamLoop env style spread flag
            (pre.map .ok ++ .ok { choice0 := some choice } :: rest) "" hist).1 →
      status = 200 ∧ answerOf payload = some (concatDeltas pre)) := by
  rw [streamLoop_continuing env style spread flag _ hist pre "" hpre, String.empty_append]
  obtain ⟨before, after, hev, hb, ha⟩ := streamLoop_at_terminal env style spread flag choice
    rest (concatDeltas pre) hist followUps hterm hsent hfollow
  rw [hev]
  refine ⟨⟨_, List.mem_append_right _ (List.Mem.head _), ?_⟩, ?_⟩
  · rw [List.append_assoc]
    exact answerOf_payload _ _ _
  · intro status payload hmem
    rcases List.mem_append.1 hmem with h1 | h1
    · have := hb _ h1
      simp [Event.isRespond] at this
    · rcases List.mem_cons.1 h1 with h2 | h2
      · injection h2 with hs hp
        subst hs hp
        rw [List.append_assoc]
        exact ⟨rfl, answerOf_payload _ _ _⟩
      · have := ha _ h2
        simp [Event.isRespond] at this

theorem streamLoop_answer_is_concat_before_terminal_witness :
    (∃ payload,
      Event.respond 200 payload
        ∈ (streamLoop flakyEnv (.str "visual") [] (.bool true)
            ([textChunk "Mito", textChunk "sis"].map .ok
              ++ .ok { choice0 := some ⟨some ⟨.undefined⟩, some "stop"⟩ } :: []) "" []).1 ∧
      answerOf payload = some (concatDeltas [textChunk "Mito", textChunk "sis"])) ∧
    (∀ status payload,
      Event.respond status payload
        ∈ (streamLoop flakyEnv (.str "visual") [] (.bool true)
            ([textChunk "Mito", textChunk "sis"].map .ok
              ++ .ok { choice0 := some ⟨some ⟨.undefined⟩, some "stop"⟩ } :: []) "" []).1 →
      status = 200 ∧ answerOf payload = some (concatDeltas [textChunk "Mito", textChunk "sis"])) :=
  streamLoop_answer_is_concat_before_terminal flakyEnv (.str "visual") [] (.bool true)
    [textChunk "Mito", textChunk "sis"] ⟨some ⟨.undefined⟩, some "stop"⟩ [] []
    [("followUpQuestions", PValue.json (.arr [.str "Q1", .str "Q2", .str "Q3"]))]
    (by
      intro c hc
      simp only [List.mem_cons, List.mem_singleton, List.not_mem_nil, or_false] at hc
      rcases hc with rfl | rfl
      · exact ⟨"Mito", none, rfl, by decide⟩
      · exact ⟨"sis", none, rfl, by decide⟩)
    rfl rfl rfl

/-! ## Events of the handlers -/

theorem events_bind {α β : Type} (P : Event → Prop) (m : Run α) (f : α → Run β)
    (hist : List Event) (hm : ∀ ev ∈ (m hist).1, P ev)
    (hf : ∀ a, (m hist).2 = .ok a → ∀ ev ∈ (f a (hist ++ (m hist).1)).1, P ev) :
    ∀ ev ∈ (Run.bind m f hist).1, P ev := by
  unfold Run.bind
  cases h : m hist with
  | mk evs r =>
    rw [h] at hm hf
    simp only at hm hf
    cases r with
    | error e => exact hm
    | ok a =>
      intro ev hev
      rcases List.mem_append.1 hev with h1 | h1
      · exact hm ev h1
      · exact hf a rfl ev h1

theorem events_tryCatch {α : Type} (P : Event → Prop) (m : Run α) (handler : JSError → Run α)
    (hist : List Event) (hm : ∀ ev ∈ (m hist).1, P ev)
    (hh : ∀ e, (m hist).2 = .error e → ∀ ev ∈ (handler e (hist ++ (m hist).1)).1, P ev) :
    ∀ ev ∈ (Run.tryCatch m handler hist).1, P ev := by
  unfold Run.tryCatch
  cases h : m hist with
  | mk evs r =>
    rw [h] at hm hh
    simp only at hm hh
    cases r with
    | ok a => exact hm
    | error e =>
      intro ev hev
      rcases List.mem_append.1 hev with h1 | h1
      · exact hm ev h1
      · exact hh e rfl ev h1

theorem events_respond (P : Event → Prop) (status : Nat) (payload : Payload)
    (hist : List Event) (h1 : P (.respond status payload))
    (h2 : P (.respondAfterSent status payload)) :
    ∀ ev ∈ (respond status payload hist).1, P ev := by
  unfold respond
  cases h : hist.any Event.isRespond with
  | true =>
    simp only [if_true, List.mem_singleton, forall_eq]
    exact h2
  | false =>
    simp only [Bool.false_eq_true, if_false, List.mem_singleton, forall_eq]
    exact h1

theorem events_call {α : Type} (P : Event → Prop) (ev0 : Event) (r : Except JSError α)
    (hist : List Event) (h : P ev0) : ∀ ev ∈ (Run.call ev0 r hist).1, P ev := by
  simp [Run.call, h]

theorem followUpSpread_shape (env : Env) (flag : JSVal) (total : String) (style : JSVal)
    (hist : List Event) (fu : Payload)
    (h : (followUpSpread env flag total style hist).2 = .ok fu) :
    (flag.truthy = false ∧ fu = []) ∨
      (flag.truthy = true ∧ ∃ q, fu = [("followUpQuestions", PValue.json q)]) := by
  rw [followUpSpread_eq] at h
  by_cases hf : flag.truthy = true
  · right
    refine ⟨hf, ?_⟩
    simp only [hf, if_true] at h
    cases hc : env.chat (.followUps total style) with
    | error e => rw [hc] at h; cases h
    | ok text =>
      rw [hc] at h
      simp only at h
      cases hj : env.jsonParse text with
      | error e => rw [hj] at h; cases h
      | ok q =>
        rw [hj] at h
        simp only [Except.ok.injEq] at h
        exact ⟨q, h.symm⟩
  · left
    have hf2 : flag.truthy = false := by simpa using hf
    simp only [hf2, Bool.false_eq_true, if_false, Except.ok.injEq] at h
    exact ⟨hf2, h.symm⟩

theorem streamLoop_events (P : Event → Prop) (env : Env) (style : JSVal) (spread : Payload)
    (flag : JSVal)
    (hchat : ∀ t, P (.chat (.followUps t style)))
    (hresp : ∀ total fu,
      ((flag.truthy = false ∧ fu = []) ∨
        (flag.truthy = true ∧ ∃ q, fu = [("followUpQuestions", PValue.json q)])) →
      P (.respond 200 ([("varkStyle", PValue.val style), ("answer", PValue.text total)]
          ++ spread ++ fu)) ∧
      P (.respondAfterSent 200 ([("varkStyle", PValue.val style),
          ("answer", PValue.text total)] ++ spread ++ fu)))
    (items : GenStream) :
    ∀ (total : String) (hist : List Event),
      ∀ ev ∈ (streamLoop env style spread flag items total hist).1, P ev := by
  induction items with
  | nil => intro total hist ev hev; simp [streamLoop, Run.pure] at hev
  | cons item rest ih =>
    intro total hist
    cases item with
    | error e => intro ev hev; simp [streamLoop, Run.throw] at hev
    | ok chunk =>
      cases chunk with
      | mk choice0 =>
        cases choice0 with
        | none => intro ev hev; simp [streamLoop, Run.throw] at hev
        | some choice =>
          by_cases hc : choice.continues = true
          · rw [streamLoop_step env style spread flag choice rest total hc]
            exact ih _ hist
          · have hc2 : choice.continues = false := by simpa using hc
            rw [streamLoop_terminal env style spread flag choice rest total hc2]
            apply events_bind
            · intro ev hev
              rw [followUpSpread_events env flag total style hist ev hev]
              exact hchat _
            · intro fu hfu
              have hshape := followUpSpread_shape env flag total style hist fu hfu
              apply events_bind
              · exact events_respond P _ _ _ (hresp total fu hshape).1 (hresp total fu hshape).2
              · intro _ _
                exact ih _ _

theorem promiseAll_events {α β : Type} (P : Event → Prop) (f : α → Run β)
    (hf : ∀ x hist, ∀ ev ∈ (f x hist).1, P ev) (items : List α) :
    ∀ hist, ∀ ev ∈ (promiseAll f items hist).1, P ev := by
  induction items with
  | nil => intro hist ev hev; simp [promiseAll, Run.pure] at hev
  | cons x xs ih =>
    intro hist ev hev
    simp only [promiseAll] at hev
    rcases List.mem_append.1 hev with h1 | h1
    · exact hf x hist ev h1
    · exact ih _ ev h1

theorem fetchAndProcess_events (env : Env) (item : SearchHit) (hist : List Event) :
    ∀ ev ∈ (fetchAndProcess env item hist).1, ev.isEvidenceCall = true := by
  by_cases h : jsLength (pageText env item.link) < 250
  · rw [fetchAndProcess_short env item hist h]
    simp [Event.isEvidenceCall]
  · have h2 : 250 ≤ jsLength (pageText env item.link) := by omega
    rw [fetchAndProcess_long env item hist h2]
    cases hs : env.splitText (pageText env item.link) with
    | error e =>
      rw [processContent_split_error env item _ [] e hs]
      simp [Event.isEvidenceCall]
    | ok chunks =>
      cases he : env.fromTexts chunks item with
      | error e =>
        rw [processContent_embed_error env item _ [] chunks e hs he]
        simp [Event.isEvidenceCall]
      | ok u =>
        rw [processContent_retrieve env item _ [] chunks hs he]
        simp [Event.isEvidenceCall]

theorem searchEngineForSources_events (env : Env) (message : JSVal) (n : Nat)
    (hist : List Event) :
    ∀ ev ∈ (searchEngineForSources env message n hist).1, ev.isEvidenceCall = true := by
  unfold searchEngineForSources rephraseInput
  apply events_bind
  · exact events_call _ _ _ _ rfl
  · intro q _
    apply events_bind
    · intro ev hev
      obtain ⟨rs, hrs⟩ := searchWithSerper_total env q n
        (hist ++ (Run.call (.chat (.rephrase message)) (env.chat (.rephrase message)) hist).1)
      rw [hrs] at hev
      simp only [List.mem_singleton] at hev
      rw [hev]
      rfl
    · intro results _
      exact promiseAll_events _ _ (fetchAndProcess_events env) _ _

theorem evidenceHandler_events (P : Event → Prop) (audio : Bool) (env : Env)
    (body : QueryBody)
    (hcall : ∀ ev, ev.isEvidenceCall = true → P ev)
    (hstream : ∀ sources req,
      (searchEngineForSources env body.message 4 []).2 = .ok sources →
      req.user = .searchResults sources → P (.chatStream req))
    (hchat : ∀ t,
      P (.chat (.followUps t ((body.preferredStyle.orDefault .null).or
        (detectVarkStyle body.message)))))
    (hresp : ∀ sources total fu,
      (searchEngineForSources env body.message 4 []).2 = .ok sources →
      (((body.returnFollowUpQuestions.orDefault (.bool true)).truthy = false ∧ fu = []) ∨
        ((body.returnFollowUpQuestions.orDefault (.bool true)).truthy = true ∧
          ∃ q, fu = [("followUpQuestions", PValue.json q)])) →
      P (.respond 200 ([("varkStyle", PValue.val ((body.preferredStyle.orDefault .null).or
            (detectVarkStyle body.message))), ("answer", PValue.text total)]
          ++ spreadIf (body.returnSources.orDefault (.bool true))
              [("sources", PValue.sources (sourcesParsed sources))] ++ fu)) ∧
      P (.respondAfterSent 200 ([("varkStyle", PValue.val
            ((body.preferredStyle.orDefault .null).or (detectVarkStyle body.message))),
            ("answer", PValue.text total)]
          ++ spreadIf (body.returnSources.orDefault (.bool true))
              [("sources", PValue.sources (sourcesParsed sources))] ++ fu)))
    (herr : ∀ status payload, status = 500 →
      P (.respond status payload) ∧ P (.respondAfterSent status payload)) :
    ∀ ev ∈ (evidenceHandler audio env body []).1, P ev := by
  unfold evidenceHandler
  apply events_tryCatch
  · apply events_bind
    · intro ev hev
      exact hcall ev (searchEngineForSources_events env body.message 4 [] ev hev)
    · intro sources hsources
      apply events_bind
      · exact events_call _ _ _ _ (hstream sources _ hsources rfl)
      · intro stream _
        exact streamLoop_events P env _ _ _ hchat
          (fun total fu hshape => hresp sources total fu hsources hshape) stream _ _
  · intro e _
    exact events_respond P _ _ _ (herr 500 _ rfl).1 (herr 500 _ rfl).2

theorem plainHandler_events (P : Event → Prop) (env : Env) (style : JSVal) (flag : JSVal)
    (request : StreamRequest)
    (hstream : P (.chatStream request))
    (hchat : ∀ t, P (.chat (.followUps t style)))
    (hresp : ∀ total fu,
      ((flag.truthy = false ∧ fu = []) ∨
        (flag.truthy = true ∧ ∃ q, fu = [("followUpQuestions", PValue.json q)])) →
      P (.respond 200 ([("varkStyle", PValue.val style), ("answer", PValue.text total)]
          ++ [] ++ fu)) ∧
      P (.respondAfterSent 200 ([("varkStyle", PValue.val style),
          ("answer", PValue.text total)] ++ [] ++ fu)))
    (herr : ∀ status payload, status = 500 →
      P (.respond status payload) ∧ P (.respondAfterSent status payload)) :
    ∀ ev ∈ (Run.tryCatch
        (Run.bind (Run.call (.chatStream request) (env.chatStream request))
          (fun chatCompletion => streamLoop env style [] flag chatCompletion ""))
        errorResponse []).1, P ev := by
  apply events_tryCatch
  · apply events_bind
    · exact events_call _ _ _ _ hstream
    · intro stream _
      exact streamLoop_events P env _ _ _ hchat hresp stream _ _
  · intro e _
    exact events_respond P _ _ _ (herr 500 _ rfl).1 (herr 500 _ rfl).2

theorem hasKey_evidence_payload (style : JSVal) (total : String) (rs flag : JSVal)
    (entries : List SearchHit) (fu : Payload)
    (hshape : (flag.truthy = false ∧ fu = []) ∨
      (flag.truthy = true ∧ ∃ q, fu = [("followUpQuestions", PValue.json q)])) :
    hasKey "varkStyle" ([("varkStyle", PValue.val style), ("answer", PValue.text total)]
        ++ spreadIf rs [("sources", PValue.sources entries)] ++ fu) = true ∧
    hasKey "answer" ([("varkStyle", PValue.val style), ("answer", PValue.text total)]
        ++ spreadIf rs [("sources", PValue.sources entries)] ++ fu) = true ∧
    hasKey "sources" ([("varkStyle", PValue.val style), ("answer", PValue.text total)]
        ++ spreadIf rs [("sources", PValue.sources entries)] ++ fu) = rs.truthy ∧
    hasKey "followUpQuestions" ([("varkStyle", PValue.val style),
        ("answer", PValue.text total)]
        ++ spreadIf rs [("sources", PValue.sources entries)] ++ fu) = flag.truthy := by
  rcases hshape with ⟨hf, rfl⟩ | ⟨hf, q, rfl⟩ <;> cases hr : rs.truthy <;>
    simp [hasKey, spreadIf, hr, hf]

theorem hasKey_plain_payload (style : JSVal) (total : String) (flag : JSVal) (fu : Payload)
    (hshape : (flag.truthy = false ∧ fu = []) ∨
      (flag.truthy = true ∧ ∃ q, fu = [("followUpQuestions", PValue.json q)])) :
    hasKey "varkStyle" ([("varkStyle", PValue.val style), ("answer", PValue.text total)]
        ++ [] ++ fu) = true ∧
    hasKey "answer" ([("varkStyle", PValue.val style), ("answer", PValue.text total)]
        ++ [] ++ fu) = true ∧
    hasKey "sources" ([("varkStyle", PValue.val style), ("answer", PValue.text total)]
        ++ [] ++ fu) = false ∧
    hasKey "followUpQuestions" ([("varkStyle", PValue.val style),
        ("answer", PValue.text total)] ++ [] ++ fu) = flag.truthy := by
  rcases hshape with ⟨hf, rfl⟩ | ⟨hf, q, rfl⟩ <;> simp [hasKey, hf]

/-! ## Shape of the success payload -/

/-- C7: every success payload (the object sent with status 200) has the keys
`varkStyle` and `answer`. In POST / and POST /audio it has `sources` exactly
when `returnSources` (true when omitted) is truthy and `followUpQuestions`
exactly when `returnFollowUpQuestions` (true when omitted) is truthy. In POST
/kinesthetic and POST /diagram it never has `sources`, whatever
`returnSources` is, it has `followUpQuestions` exactly when the flag is
truthy, and no call of the evidence pipeline (rephrase, search, fetch, split,
embed, retrieve) is made. -/
theorem success_payload_fields (env : Env) (body : QueryBody) (payload : Payload) :
    (Event.respond 200 payload ∈ (postRoot env body []).1 →
      hasKey "varkStyle" payload = true ∧ hasKey "answer" payload = true ∧
      hasKey "sources" payload = (body.returnSources.orDefault (.bool true)).truthy ∧
      hasKey "followUpQuestions" payload
        = (body.returnFollowUpQuestions.orDefault (.bool true)).truthy) ∧
    (Event.respond 200 payload ∈ (postAudio env body []).1 →
      hasKey "varkStyle" payload = true ∧ hasKey "answer" payload = true ∧
      hasKey "sources" payload = (body.returnSources.orDefault (.bool true)).truthy ∧
      hasKey "followUpQuestions" payload
        = (body.returnFollowUpQuestions.orDefault (.bool true)).truthy) ∧
    (Event.respond 200 payload ∈ (postKinesthetic env body []).1 →
      hasKey "varkStyle" payload = true ∧ hasKey "answer" payload = true ∧
      hasKey "sources" payload = false ∧
      hasKey "followUpQuestions" payload
        = (body.returnFollowUpQuestions.orDefault (.bool true)).truthy) ∧
    (Event.respond 200 payload ∈ (postDiagram env body []).1 →
      hasKey "varkStyle" payload = true ∧ hasKey "answer" payload = true ∧
      hasKey "sources" payload = false ∧
      hasKey "followUpQuestions" payload
        = (body.returnFollowUpQuestions.orDefault (.bool true)).truthy) ∧
    (∀ ev ∈ (postKinesthetic env body []).1, ev.isEvidenceCall = false) ∧
    (∀ ev ∈ (postDiagram env body []).1, ev.isEvidenceCall = false) := by
  have hroot : ∀ audio, ∀ ev ∈ (evidenceHandler audio env body []).1,
      ∀ p, ev = Event.respond 200 p →
        hasKey "varkStyle" p = true ∧ hasKey "answer" p = true ∧
        hasKey "sources" p = (body.returnSources.orDefault (.bool true)).truthy ∧
        hasKey "followUpQuestions" p
          = (body.returnFollowUpQuestions.orDefault (.bool true)).truthy := by
    intro audio
    apply evidenceHandler_events
    · intro ev hev p hp
      subst hp
      cases hev
    · intro _ _ _ _ p hp
      cases hp
    · intro _ p hp
      cases hp
    · intro sources total fu _ hshape
      refine ⟨fun p hp => ?_, fun p hp => by cases hp⟩
      injection hp with _ hp
      subst hp
      exact hasKey_evidence_payload _ _ _ _ _ _ hshape
    · intro status payload hs
      subst hs
      exact ⟨fun p hp => (by injection hp with h1 _; cases h1), fun p hp => (by cases hp)⟩
  have hplain : ∀ (style : JSVal) (request : StreamRequest),
      ∀ ev ∈ (Run.tryCatch
        (Run.bind (Run.call (.chatStream request) (env.chatStream request))
          (fun chatCompletion => streamLoop env style []
            (body.returnFollowUpQuestions.orDefault (.bool true)) chatCompletion ""))
        errorResponse []).1,
      ev.isEvidenceCall = false ∧
      ∀ p, ev = Event.respond 200 p →
        hasKey "varkStyle" p = true ∧ hasKey "answer" p = true ∧
        hasKey "sources" p = false ∧
        hasKey "followUpQuestions" p
          = (body.returnFollowUpQuestions.orDefault (.bool true)).truthy := by
    intro style request
    apply plainHandler_events
    · exact ⟨rfl, fun p hp => by cases hp⟩
    · intro _
      exact ⟨rfl, fun p hp => by cases hp⟩
    · intro total fu hshape
      refine ⟨⟨rfl, fun p hp => ?_⟩, ⟨rfl, fun p hp => by cases hp⟩⟩
      injection hp with _ hp
      subst hp
      exact hasKey_plain_payload _ _ _ _ hshape
    · intro status payload hs
      subst hs
      exact ⟨⟨rfl, fun p hp => (by injection hp with h1 _; cases h1)⟩,
        ⟨rfl, fun p hp => (by cases hp)⟩⟩
  refine ⟨fun h => hroot false _ h payload rfl, fun h => hroot true _ h payload rfl,
    fun h => (hplain _ _ _ h).2 payload rfl, fun h => (hplain _ _ _ h).2 payload rfl,
    fun ev h => (hplain _ _ ev h).1, fun ev h => (hplain _ _ ev h).1⟩

theorem success_payload_fields_witness :
    (hasKey "varkStyle" mitosisRootPayload = true ∧
      hasKey "answer" mitosisRootPayload = true ∧
      hasKey "sources" mitosisRootPayload
        = (mitosisBody.returnSources.orDefault (.bool true)).truthy ∧
      hasKey "followUpQuestions" mitosisRootPayload
        = (mitosisBody.returnFollowUpQuestions.orDefault (.bool true)).truthy) ∧
    (hasKey "varkStyle" mitosisKinestheticPayload = true ∧
      hasKey "answer" mitosisKinestheticPayload = true ∧
      hasKey "sources" mitosisKinestheticPayload = false ∧
      hasKey "followUpQuestions" mitosisKinestheticPayload
        = (mitosisBody.returnFollowUpQuestions.orDefault (.bool true)).truthy) :=
  ⟨(success_payload_fields mitosisEnv mitosisBody mitosisRootPayload).1
      (List.getElem?_mem (by rfl :
        (postRoot mitosisEnv mitosisBody []).1[13]?
          = some (Event.respond 200 mitosisRootPayload))),
   (success_payload_fields mitosisEnv mitosisBody mitosisKinestheticPayload).2.2.1
      (List.getElem?_mem (by rfl :
        (postKinesthetic mitosisEnv mitosisBody []).1[2]?
          = some (Event.respond 200 mitosisKinestheticPayload)))⟩

/-! ## The evidence in the user turn -/

theorem evidenceHandler_user_turn (audio : Bool) (env : Env) (body : QueryBody) :
    ∀ ev ∈ (evidenceHandler audio env body []).1,
      (∀ req, ev = Event.chatStream req →
        ∃ sources, (searchEngineForSources env body.message 4 []).2 = .ok sources ∧
          req.user = .searchResults sources) ∧
      (∀ payload entries, ev = Event.respond 200 payload →
        ("sources", PValue.sources entries) ∈ payload →
        ∃ sources, (searchEngineForSources env body.message 4 []).2 = .ok sources ∧
          entries = sourcesParsed sources) := by
  apply evidenceHandler_events
  · intro ev hev
    refine ⟨fun req hreq => ?_, fun payload entries hp _ => ?_⟩
    · subst hreq
      cases hev
    · subst hp
      cases hev
  · intro sources req hs hu
    refine ⟨fun req2 hreq => ?_, fun payload entries hp _ => (by cases hp)⟩
    injection hreq with hreq
    subst hreq
    exact ⟨sources, hs, hu⟩
  · intro t
    exact ⟨fun req hreq => (by cases hreq), fun payload entries hp _ => (by cases hp)⟩
  · intro sources total fu hs hshape
    refine ⟨⟨fun req hreq => (by cases hreq), fun payload entries hp hmem => ?_⟩,
      ⟨fun req hreq => (by cases hreq), fun payload entries hp _ => (by cases hp)⟩⟩
    injection hp with _ hp
    subst hp
    refine ⟨sources, hs, ?_⟩
    rcases hshape with ⟨_, rfl⟩ | ⟨_, q, rfl⟩
    · by_cases hr : (body.returnSources.orDefault (.bool true)).truthy = true
      · simpa [spreadIf, hr] using hmem
      · simp [spreadIf, hr] at hmem
    · by_cases hr : (body.returnSources.orDefault (.bool true)).truthy = true
      · simpa [spreadIf, hr] using hmem
      · simp [spreadIf, hr] at hmem
  · intro status payload hs
    subst hs
    exact ⟨⟨fun req hreq => (by cases hreq),
        fun p entries hp _ => (by injection hp with h1 _; cases h1)⟩,
      ⟨fun req hreq => (by cases hreq), fun p entries hp _ => (by cases hp)⟩⟩

/-- C6 (as stated, refuted): in the scenario the user turn of the streaming
call of POST / carries a `null` entry and two documents with the same link. -/
theorem user_turn_fused_counterexample :
    ¬ (∀ (env : Env) (body : QueryBody) (req : StreamRequest),
        Event.chatStream req ∈ (postRoot env body []).1 →
        ∃ sources, req.user = .searchResults sources ∧ none ∉ sources ∧
          ((evidenceDocs sources).map (fun d => d.metadata.link)).Nodup) := by
  intro h
  obtain ⟨sources, hu, hnone, _⟩ := h mitosisEnv mitosisBody mitosisRequest
    (List.getElem?_mem (by rfl :
      (postRoot mitosisEnv mitosisBody []).1[11]? = some (Event.chatStream mitosisRequest)))
  have hs : sources = mitosisSources := by
    have : UserTurn.searchResults mitosisSources = UserTurn.searchResults sources := hu
    injection this with this
    exact this.symm
  subst hs
  exact hnone (by decide)

/-- C6 (amended): in POST / and POST /audio, the evidence serialized into the
user turn of the streaming generation call is the raw list returned by
`searchEngineForSources`: one entry per filtered hit, in hit order, `null`
for an absent branch, groups neither flattened nor deduplicated. The
deduplicated list `sourcesParsed` is used only for the `sources` field of
the response. -/
theorem user_turn_is_raw_sources (env : Env) (body : QueryBody) (req : StreamRequest)
    (payload : Payload) (entries : List SearchHit) :
    (Event.chatStream req ∈ (postRoot env body []).1 →
      ∃ sources, (searchEngineForSources env body.message 4 []).2 = .ok sources ∧
        req.user = .searchResults sources) ∧
    (Event.chatStream req ∈ (postAudio env body []).1 →
      ∃ sources, (searchEngineForSources env body.message 4 []).2 = .ok sources ∧
        req.user = .searchResults sources) ∧
    (Event.respond 200 payload ∈ (postRoot env body []).1 →
      ("sources", PValue.sources entries) ∈ payload →
      ∃ sources, (searchEngineForSources env body.message 4 []).2 = .ok sources ∧
        entries = sourcesParsed sources) ∧
    (Event.respond 200 payload ∈ (postAudio env body []).1 →
      ("sources", PValue.sources entries) ∈ payload →
      ∃ sources, (searchEngineForSources env body.message 4 []).2 = .ok sources ∧
        entries = sourcesParsed sources) :=
  ⟨fun h => (evidenceHandler_user_turn false env body _ h).1 req rfl,
   fun h => (evidenceHandler_user_turn true env body _ h).1 req rfl,
   fun h hm => (evidenceHandler_user_turn false env body _ h).2 payload entries rfl hm,
   fun h hm => (evidenceHandler_user_turn true env body _ h).2 payload entries rfl hm⟩

theorem user_turn_is_raw_sources_witness :
    (∃ sources, (searchEngineForSources mitosisEnv mitosisBody.message 4 []).2 = .ok sources ∧
      mitosisRequest.user = .searchResults sources) ∧
    (∃ sources, (searchEngineForSources mitosisEnv mitosisBody.message 4 []).2 = .ok sources ∧
      [({ title := some "A", link := some "https://a.example/mitosis",
          snippet := some "first" } : SearchHit)] = sourcesParsed sources) :=
  ⟨(user_turn_is_raw_sources mitosisEnv mitosisBody mitosisRequest mitosisRootPayload []).1
      (List.getElem?_mem (by rfl :
        (postRoot mitosisEnv mitosisBody []).1[11]?
          = some (Event.chatStream mitosisRequest))),
   (user_turn_is_raw_sources mitosisEnv mitosisBody mitosisRequest mitosisRootPayload _).2.2.1
      (List.getElem?_mem (by rfl :
        (postRoot mitosisEnv mitosisBody []).1[13]?
          = some (Event.respond 200 mitosisRootPayload)))
      (List.getElem?_mem (by rfl :
        mitosisRootPayload[2]? = some ("sources", PValue.sources
          [{ title := some "A", link := some "https://a.example/mitosis",
             snippet := some "first" }])))⟩

/-! ## Whitespace clean-up of the extracted content -/

theorem replaceRuns_true (p : Char → Bool) (cs : List Char) :
    replaceRuns p true cs = replaceRuns p false (cs.dropWhile p) := by
  induction cs with
  | nil => rfl
  | cons c cs ih =>
    by_cases hc : p c = true
    · simp [replaceRuns, List.dropWhile, hc, ih]
    · simp [replaceRuns, List.dropWhile, hc]

theorem replaceRuns_eq_collapseWithin (n : Nat) :
    ∀ cs : List Char, cs.length ≤ n →
      replaceRuns isJsSpace false cs = collapseWithin n cs := by
  induction n with
  | zero =>
    intro cs h
    cases cs with
    | nil => rfl
    | cons c cs => simp at h
  | succ n ih =>
    intro cs h
    cases cs with
    | nil => rfl
    | cons c cs =>
      have hlen : cs.length ≤ n := by simpa using h
      cases hc : isJsSpace c with
      | true =>
        have hd : (cs.dropWhile isJsSpace).length ≤ n :=
          le_trans (List.dropWhile_sublist isJsSpace).length_le hlen
        simp only [replaceRuns, collapseWithin, hc, if_true, Bool.false_eq_true, if_false]
        rw [replaceRuns_true, ih _ hd]
      | false =>
        simp only [replaceRuns, collapseWithin, hc, Bool.false_eq_true, if_false]
        rw [ih _ hlen]

theorem replaceRuns_eq_collapseWhitespace (cs : List Char) :
    replaceRuns isJsSpace false cs = collapseWhitespace cs :=
  replaceRuns_eq_collapseWithin cs.length cs (Nat.le_refl _)

theorem collapseWithin_enough (n : Nat) (cs : List Char) (h : cs.length ≤ n) :
    collapseWithin n cs = collapseWhitespace cs := by
  rw [← replaceRuns_eq_collapseWithin n cs h, replaceRuns_eq_collapseWhitespace]

theorem replaceRuns_mem (p : Char → Bool) (cs : List Char) :
    ∀ inRun : Bool, ∀ c ∈ replaceRuns p inRun cs, p c = true → c = ' ' := by
  induction cs with
  | nil => intro inRun c hc; simp [replaceRuns] at hc
  | cons x xs ih =>
    intro inRun c hc hp
    cases hx : p x with
    | true =>
      cases inRun with
      | true =>
        simp only [replaceRuns, hx, if_true] at hc
        exact ih true c hc hp
      | false =>
        simp only [replaceRuns, hx, if_true, Bool.false_eq_true, if_false,
          List.mem_cons] at hc
        rcases hc with hc | hc
        · exact hc
        · exact ih true c hc hp
    | false =>
      simp only [replaceRuns, hx, Bool.false_eq_true, if_false, List.mem_cons] at hc
      rcases hc with hc | hc
      · rw [hc, hx] at hp
        cases hp
      · exact ih false c hc hp

theorem replaceRuns_chain (p : Char → Bool) (hsp : p ' ' = true) (cs : List Char) :
    (replaceRuns p false cs).Chain' (fun a b => ¬ (a = ' ' ∧ b = ' ')) ∧
    (replaceRuns p true cs).Chain' (fun a b => ¬ (a = ' ' ∧ b = ' ')) ∧
    ∀ h ∈ (replaceRuns p true cs).head?, h ≠ ' ' := by
  induction cs with
  | nil => simp [replaceRuns]
  | cons x xs ih =>
    obtain ⟨ih1, ih2, ih3⟩ := ih
    by_cases hx : p x = true
    · simp only [replaceRuns, hx, if_true, Bool.false_eq_true, if_false]
      refine ⟨?_, ih2, ih3⟩
      exact ih2.cons' (fun y hy hcontra => ih3 y hy hcontra.2)
    · have hne : x ≠ ' ' := by
        intro h
        rw [h] at hx
        exact hx hsp
      simp only [replaceRuns, hx, if_false]
      have hch : (x :: replaceRuns p false xs).Chain' (fun a b => ¬ (a = ' ' ∧ b = ' ')) :=
        ih1.cons' (fun y _ hcontra => hne hcontra.1)
      refine ⟨hch, hch, ?_⟩
      intro h hh
      have hh2 : x = h := by simpa using hh
      rw [← hh2]
      exact hne

theorem replaceRuns_filter (p : Char → Bool) (hsp : p ' ' = true) (cs : List Char) :
    ∀ inRun : Bool,
      (replaceRuns p inRun cs).filter (fun c => !p c) = cs.filter (fun c => !p c) := by
  induction cs with
  | nil => intro inRun; rfl
  | cons x xs ih =>
    intro inRun
    by_cases hx : p x = true
    · cases inRun with
      | true => simp [replaceRuns, hx, ih true]
      | false => simp [replaceRuns, hx, hsp, ih true]
    · simp [replaceRuns, hx, ih false]

theorem replaceRuns_none (q : Char → Bool) (cs : List Char) :
    ∀ inRun : Bool, (∀ c ∈ cs, q c = false) → replaceRuns q inRun cs = cs := by
  induction cs with
  | nil => intro inRun _; rfl
  | cons x xs ih =>
    intro inRun h
    have hx : q x = false := h x (by simp)
    simp only [replaceRuns, hx, Bool.false_eq_true, if_false]
    rw [ih false (fun c hc => h c (List.mem_cons_of_mem _ hc))]

theorem replaceRuns_fixed (p : Char → Bool) (cs : List Char) :
    (∀ c ∈ cs, p c = true → c = ' ') →
    cs.Chain' (fun a b => ¬ (a = ' ' ∧ b = ' ')) →
    replaceRuns p false cs = cs ∧
      ((∀ h ∈ cs.head?, p h = false) → replaceRuns p true cs = cs) := by
  induction cs with
  | nil => intro _ _; simp [replaceRuns]
  | cons x xs ih =>
    intro hmem hch
    rw [List.chain'_cons'] at hch
    obtain ⟨ih1, ih2⟩ := ih (fun c hc => hmem c (List.mem_cons_of_mem _ hc)) hch.2
    by_cases hx : p x = true
    · have hxs : x = ' ' := hmem x (by simp) hx
      have hhead : ∀ h ∈ xs.head?, p h = false := by
        intro h hh
        cases hph : p h with
        | false => rfl
        | true =>
          have hsp : h = ' ' := hmem h (List.mem_cons_of_mem _ (List.mem_of_mem_head? hh)) hph
          exact absurd ⟨hxs, hsp⟩ (hch.1 h hh)
      refine ⟨?_, fun hcontra => ?_⟩
      · simp only [replaceRuns, hx, if_true, Bool.false_eq_true, if_false]
        rw [ih2 hhead, hxs]
      · have := hcontra x (by simp)
        rw [hx] at this
        cases this
    · simp only [replaceRuns, hx, if_false]
      rw [ih1]
      exact ⟨rfl, fun _ => rfl⟩

theorem filter_dropWhile_not (p : Char → Bool) (l : List Char) :
    (l.dropWhile p).filter (fun c => !p c) = l.filter (fun c => !p c) := by
  induction l with
  | nil => rfl
  | cons x xs ih =>
    cases hx : p x with
    | true => simp [List.dropWhile, hx, ih]
    | false => simp [List.dropWhile, hx]

theorem filter_rdropWhile_not (p : Char → Bool) (l : List Char) :
    (l.rdropWhile p).filter (fun c => !p c) = l.filter (fun c => !p c) := by
  unfold List.rdropWhile
  rw [List.filter_reverse, filter_dropWhile_not, List.filter_reverse, List.reverse_reverse]

theorem jsTrim_within (l : List Char) : jsTrim l <:+: l :=
  (List.rdropWhile_prefix isJsSpace _).isInfix.trans (List.dropWhile_suffix isJsSpace).isInfix

theorem jsTrim_filter (l : List Char) :
    (jsTrim l).filter (fun c => !isJsSpace c) = l.filter (fun c => !isJsSpace c) := by
  unfold jsTrim
  rw [filter_rdropWhile_not, filter_dropWhile_not]

theorem jsTrim_head (l : List Char) (c : Char) (h : (jsTrim l).head? = some c) :
    isJsSpace c = false := by
  unfold jsTrim at h
  obtain ⟨t, ht⟩ := List.rdropWhile_prefix isJsSpace (l.dropWhile isJsSpace)
  have hnot := List.head?_dropWhile_not isJsSpace l
  cases hr : (l.dropWhile isJsSpace).rdropWhile isJsSpace with
  | nil => rw [hr] at h; cases h
  | cons a as =>
    rw [hr] at h ht
    simp only [List.head?_cons, Option.some.injEq] at h
    rw [← ht] at hnot
    simp only [List.cons_append, List.head?_cons] at hnot
    rw [← h]
    exact hnot

theorem jsTrim_last (l : List Char) (c : Char) (h : (jsTrim l).getLast? = some c) :
    isJsSpace c = false := by
  unfold jsTrim at h
  have hne : (l.dropWhile isJsSpace).rdropWhile isJsSpace ≠ [] := by
    intro h0
    rw [h0] at h
    cases h
  have hlast := List.rdropWhile_last_not isJsSpace (l.dropWhile isJsSpace) hne
  rw [List.getLast?_eq_getLast _ hne] at h
  simp only [Option.some.injEq] at h
  rw [h] at hlast
  simpa using hlast

theorem jsTrim_fixed (l : List Char)
    (hhead : ∀ c, l.head? = some c → isJsSpace c = false)
    (hlast : ∀ c, l.getLast? = some c → isJsSpace c = false) : jsTrim l = l := by
  unfold jsTrim
  have h1 : l.dropWhile isJsSpace = l := by
    cases l with
    | nil => rfl
    | cons a as =>
      have := hhead a rfl
      simp [List.dropWhile, this]
  rw [h1, List.rdropWhile_eq_self_iff]
  intro hl
  have := hlast _ (List.getLast?_eq_getLast l hl)
  simp [this]

theorem not_adjacent_of_chain (l : List Char)
    (h : l.Chain' (fun a b => ¬ (a = ' ' ∧ b = ' '))) : ¬ ([' ', ' '] <:+: l) := by
  intro hin
  obtain ⟨before, after, hl⟩ := hin
  rw [← hl] at h
  have h2 := h.left_of_append.right_of_append
  simp at h2

theorem cleaned_chars (cs : List Char) :
    jsTrim (replaceRuns (fun c => c == '\n') false (replaceRuns isJsSpace false cs))
      = jsTrim (collapseWhitespace cs) := by
  rw [replaceRuns_none (fun c => c == '\n') _ false, replaceRuns_eq_collapseWhitespace]
  intro c hc
  cases hs : isJsSpace c with
  | true =>
    rw [replaceRuns_mem isJsSpace cs false c hc hs]
    decide
  | false =>
    cases hn : c == '\n' with
    | false => rfl
    | true =>
      have : c = '\n' := by simpa using hn
      rw [this] at hs
      exact absurd hs (by decide)

/-- C11: for every content string the clean-up of `extractMainContent`
returns the text in which every maximal run of whitespace characters (the
characters JavaScript's `\s` matches: spaces, tabs, newlines, ...) is replaced
with a single space and leading and trailing whitespace is removed. The
result neither starts nor ends with a whitespace character, contains no
whitespace character other than the space, contains no two adjacent spaces,
has the same non-whitespace characters in the same order as the input, and
is left unchanged by the clean-up. -/
theorem cleanContent_normalizes (content : String) :
    (cleanContent content).toList = jsTrim (collapseWhitespace content.toList) ∧
    (∀ c, (cleanContent content).toList.head? = some c → isJsSpace c = false) ∧
    (∀ c, (cleanContent content).toList.getLast? = some c → isJsSpace c = false) ∧
    (∀ c ∈ (cleanContent content).toList, isJsSpace c = true → c = ' ') ∧
    ¬ ([' ', ' '] <:+: (cleanContent content).toList) ∧
    (cleanContent content).toList.filter (fun c => !isJsSpace c)
      = content.toList.filter (fun c => !isJsSpace c) ∧
    cleanContent (cleanContent content) = cleanContent content := by
  have hclean : ∀ s : String, (cleanContent s).toList = jsTrim (collapseWhitespace s.toList) :=
    fun s => cleaned_chars s.toList
  have hmem : ∀ c ∈ jsTrim (collapseWhitespace content.toList), isJsSpace c = true → c = ' ' := by
    intro c hc hs
    rw [← replaceRuns_eq_collapseWhitespace] at hc
    exact replaceRuns_mem isJsSpace _ false c ((jsTrim_within _).subset hc) hs
  have hchain : (jsTrim (collapseWhitespace content.toList)).Chain'
      (fun a b => ¬ (a = ' ' ∧ b = ' ')) := by
    rw [← replaceRuns_eq_collapseWhitespace]
    obtain ⟨before, after, hl⟩ := jsTrim_within (replaceRuns isJsSpace false content.toList)
    have hfull := (replaceRuns_chain isJsSpace (by decide) content.toList).1
    rw [← hl] at hfull
    exact hfull.left_of_append.right_of_append
  have hhead := jsTrim_head (collapseWhitespace content.toList)
  have hlast := jsTrim_last (collapseWhitespace content.toList)
  refine ⟨hclean content, ?_, ?_, ?_, ?_, ?_, ?_⟩
  · rw [hclean]; exact hhead
  · rw [hclean]; exact hlast
  · rw [hclean]; exact hmem
  · rw [hclean]; exact not_adjacent_of_chain _ hchain
  · rw [hclean, jsTrim_filter, ← replaceRuns_eq_collapseWhitespace]
    exact replaceRuns_filter isJsSpace (by decide) _ false
  · have hfix : jsTrim (collapseWhitespace (cleanContent content).toList)
        = (cleanContent content).toList := by
      rw [← replaceRuns_eq_collapseWhitespace, hclean,
        (replaceRuns_fixed isJsSpace _ hmem hchain).1]
      exact jsTrim_fixed _ hhead hlast
    have h2 := hclean (cleanContent content)
    rw [hfix] at h2
    exact String.ext h2

/-! ## Responses per stream -/

theorem sentCount_around (before after : List Event) (status : Nat) (payload : Payload)
    (hb : ∀ ev ∈ before, ev.isRespond = false) (ha : ∀ ev ∈ after, ev.isRespond = false) :
    sentCount (before ++ .respond status payload :: after) = 1 := by
  unfold sentCount
  rw [List.filter_append, List.filter_cons]
  have h1 : before.filter Event.isRespond = [] := by
    rw [List.filter_eq_nil_iff]
    intro ev hev
    simp [hb ev hev]
  have h2 : after.filter Event.isRespond = [] := by
    rw [List.filter_eq_nil_iff]
    intro ev hev
    simp [ha ev hev]
  simp [h1, h2, Event.isRespond]

theorem streamLoop_responses (env : Env) (style : JSVal) (spread : Payload) (flag : JSVal)
    (hfollow : ∀ total, ∃ fu, (followUpSpread env flag total style []).2 = .ok fu)
    (chunks : List Chunk) :
    ∀ (total : String) (hist : List Event),
      (∀ c ∈ chunks, c.hasDelta = true) → hist.any Event.isRespond = false →
      sentCount (streamLoop env style spread flag (chunks.map .ok) total hist).1
        = (if chunks.any Chunk.isStop then 1 else 0) ∧
      (∀ status payload,
        Event.respond status payload
          ∈ (streamLoop env style spread flag (chunks.map .ok) total hist).1 → status = 200) ∧
      (chunks.any Chunk.isStop = false →
        streamLoop env style spread flag (chunks.map .ok) total hist = ([], .ok ())) := by
  induction chunks with
  | nil =>
    intro total hist _ _
    simp [streamLoop, Run.pure, sentCount]
  | cons c cs ih =>
    intro total hist hdelta hsent
    have hc := hdelta c (by simp)
    cases c with
    | mk choice0 =>
      cases choice0 with
      | none => simp [Chunk.hasDelta] at hc
      | some choice =>
        have hd : choice.delta.isSome = true := hc
        by_cases hstop : choice.finish_reason = some "stop"
        · have hcont : choice.continues = false := by simp [Choice.continues, hstop]
          have hany : (Chunk.mk (some choice) :: cs).any Chunk.isStop = true := by
            simp [Chunk.isStop, hstop]
          obtain ⟨fu, hfu⟩ := hfollow total
          obtain ⟨before, after, hev, hb, ha⟩ := streamLoop_at_terminal env style spread flag
            choice (cs.map .ok) total hist fu hcont hsent hfu
          simp only [List.map_cons]
          rw [hev, hany]
          refine ⟨by simpa using sentCount_around before after 200 _ hb ha, ?_, ?_⟩
          · intro status payload hmem
            rcases List.mem_append.1 hmem with h1 | h1
            · have := hb _ h1
              simp [Event.isRespond] at this
            · rcases List.mem_cons.1 h1 with h2 | h2
              · injection h2 with hs _
              · have := ha _ h2
                simp [Event.isRespond] at this
          · intro h
            cases h
        · have hcont : choice.continues = true := by simp [Choice.continues, hd, hstop]
          have hany : (Chunk.mk (some choice) :: cs).any Chunk.isStop
              = cs.any Chunk.isStop := by
            simp [Chunk.isStop, hstop]
          simp only [List.map_cons]
          rw [streamLoop_step env style spread flag choice _ total hcont, hany]
          exact ih _ hist (fun c hc => hdelta c (List.mem_cons_of_mem _ hc)) hsent

/-- C12 (as stated, refuted): on a stream with three `"stop"` events (every
event carrying a delta, no follow-ups requested) one response is sent and
`res.status(200).json` is called twice, neither of which is three. -/
theorem response_per_stop_counterexample :
    ¬ (∀ (env : Env) (style : JSVal) (spread : Payload) (flag : JSVal) (chunks : List Chunk),
        (∀ c ∈ chunks, c.hasDelta = true) →
        (∀ total, ∃ fu, (followUpSpread env flag total style []).2 = .ok fu) →
        sentCount (streamLoop env style spread flag (chunks.map .ok) "" []).1
            = stopCount chunks ∨
          successCalls (streamLoop env style spread flag (chunks.map .ok) "" []).1
            = stopCount chunks) := by
  intro h
  have h0 := h offlineEnv (.str "visual") [] (.bool false)
    [textChunk "Hi", stopChunk, stopChunk, stopChunk] (by decide)
    (fun total => ⟨[], by rw [followUpSpread_eq]; rfl⟩)
  revert h0
  decide

/-- C12 (amended): for every finite stream of generation events in which
every event carries a delta object, and with follow-up generation succeeding
when requested, the streaming loop sends a success response if and only if
some event has `finish_reason` `"stop"`. It sends at most one response:
exactly one, with status 200, when the stream contains at least one `"stop"`
event, however many there are, and none when it contains no such event, in
which case the loop ends normally without any response or external call. -/
theorem streamLoop_single_response (env : Env) (style : JSVal) (spread : Payload)
    (flag : JSVal) (chunks : List Chunk) (hist : List Event)
    (hdelta : ∀ c ∈ chunks, c.hasDelta = true)
    (hfollow : ∀ total, ∃ fu, (followUpSpread env flag total style []).2 = .ok fu)
    (hsent : hist.any Event.isRespond = false) :
    ((∃ payload, Event.respond 200 payload
        ∈ (streamLoop env style spread flag (chunks.map .ok) "" hist).1)
      ↔ ∃ c ∈ chunks, c.isStop = true) ∧
    sentCount (streamLoop env style spread flag (chunks.map .ok) "" hist).1
      = (if chunks.any Chunk.isStop then 1 else 0) ∧
    (∀ status payload,
      Event.respond status payload
        ∈ (streamLoop env style spread flag (chunks.map .ok) "" hist).1 → status = 200) ∧
    (stopCount chunks = 0 →
      streamLoop env style spread flag (chunks.map .ok) "" hist = ([], .ok ())) := by
  obtain ⟨h1, h2, h3⟩ := streamLoop_responses env style spread flag hfollow chunks "" hist
    hdelta hsent
  refine ⟨?_, h1, h2, ?_⟩
  · constructor
    · rintro ⟨payload, hmem⟩
      by_contra hno
      have hany : chunks.any Chunk.isStop = false := by
        rw [List.any_eq_false]
        intro c hc hs
        exact hno ⟨c, hc, hs⟩
      rw [h3 hany] at hmem
      cases hmem
    · rintro ⟨c, hc, hs⟩
      have hany : chunks.any Chunk.isStop = true := List.any_eq_true.2 ⟨c, hc, hs⟩
      rw [hany] at h1
      simp only [if_true] at h1
      unfold sentCount at h1
      cases hf : (streamLoop env style spread flag (chunks.map .ok) "" hist).1.filter
          Event.isRespond with
      | nil => rw [hf] at h1; simp at h1
      | cons ev rest =>
        have hev : ev ∈ (streamLoop env style spread flag (chunks.map .ok) "" hist).1.filter
            Event.isRespond := by rw [hf]; simp
        obtain ⟨hin, hresp⟩ := List.mem_filter.1 hev
        cases ev with
        | respond status payload =>
          have := h2 status payload hin
          subst this
          exact ⟨payload, hin⟩
        | _ => simp [Event.isRespond] at hresp
  · intro h0
    apply h3
    rw [List.any_eq_false]
    intro c hc hs
    have : c ∈ chunks.filter Chunk.isStop := List.mem_filter.2 ⟨hc, hs⟩
    unfold stopCount at h0
    rw [List.length_eq_zero.1 h0] at this
    cases this

theorem streamLoop_single_response_witness :
    (((∃ payload, Event.respond 200 payload
          ∈ (streamLoop flakyEnv (.str "visual") [] (.bool true)
              ([textChunk "Mito", textChunk "sis", stopChunk, stopChunk].map .ok) "" []).1)
        ↔ ∃ c ∈ [textChunk "Mito", textChunk "sis", stopChunk, stopChunk], c.isStop = true) ∧
      sentCount (streamLoop flakyEnv (.str "visual") [] (.bool true)
          ([textChunk "Mito", textChunk "sis", stopChunk, stopChunk].map .ok) "" []).1
        = (if [textChunk "Mito", textChunk "sis", stopChunk, stopChunk].any Chunk.isStop
            then 1 else 0) ∧
      (∀ status payload,
        Event.respond status payload
          ∈ (streamLoop flakyEnv (.str "visual") [] (.bool true)
              ([textChunk "Mito", textChunk "sis", stopChunk, stopChunk].map .ok) "" []).1 →
        status = 200) ∧
      (stopCount [textChunk "Mito", textChunk "sis", stopChunk, stopChunk] = 0 →
        streamLoop flakyEnv (.str "visual") [] (.bool true)
            ([textChunk "Mito", textChunk "sis", stopChunk, stopChunk].map .ok) "" []
          = ([], .ok ()))) ∧
    streamLoop flakyEnv (.str "visual") [] (.bool true)
        ([textChunk "Mito", lengthChunk].map .ok) "" []
      = ([], .ok ()) :=
  ⟨streamLoop_single_response flakyEnv (.str "visual") [] (.bool true)
      [textChunk "Mito", textChunk "sis", stopChunk, stopChunk] [] (by decide)
      (fun total => ⟨[("followUpQuestions",
          PValue.json (.arr [.str "Q1", .str "Q2", .str "Q3"]))],
        by rw [followUpSpread_eq]; rfl⟩)
      rfl,
   (streamLoop_single_response flakyEnv (.str "visual") [] (.bool true)
      [textChunk "Mito", lengthChunk] [] (by decide)
      (fun total => ⟨[("followUpQuestions",
          PValue.json (.arr [.str "Q1", .str "Q2", .str "Q3"]))],
        by rw [followUpSpread_eq]; rfl⟩)
      rfl).2.2.2 (by decide)⟩

end Vidyagiri
